import Mathlib

/-! # Verification of `13_ffi/src/c_library.c`

A shallow embedding of the C library (`add_numbers`, `concatenate_strings`,
`initialize_item`, `create_collection`) together with the small part of the C
runtime it relies on (`strlen`, `strcpy`, `strcat`, `strncpy`, `sprintf` with the
format `"Item %zu"`, `malloc`, `calloc`, `free`).

Conventions of the embedding:

* a `char` is a byte value, a natural number; `0` is the terminator;
* a `const char*` argument is `Option (List Nat)`: `none` is the null pointer and
  `some m` is the memory found at the pointer.  The text of the string is the part
  of `m` before the first zero byte (`cstr m`); the end of the list counts as a
  terminator;
* a buffer that the code writes to is a list of bytes of the buffer's size, and a
  write that does not fit in the buffer is the fault `out_of_bounds` (undefined
  behaviour in C);
* the heap is explicit state: the list of live block addresses, the decisions of
  the allocator for the coming requests, the contents of uninitialised memory and
  the history of acquisitions and releases;
* `size_t` is 64 bits wide and `int32_t` is two's complement, as on the LP64
  targets the library is built for.
-/

namespace CLib

/-! ## Machine integers -/

/-- Number of values of a `size_t` (64 bits). -/
def SIZE_MOD : Nat := 2 ^ 64

/-- Conversion to `int32_t`, as in `(int32_t)i`: the value is reduced modulo `2^32`
into the range `[-2^31, 2^31)`. -/
def toInt32 (n : Int) : Int := (n + 2 ^ 31) % 2 ^ 32 - 2 ^ 31

/-- `sizeof(Collection)`: two pointers and a `size_t`. -/
def sizeof_Collection : Nat := 24

/-- `sizeof(Item)`: `int32_t` (4), `char[64]`, padding (4), `double` (8). -/
def sizeof_Item : Nat := 80

/-- `sizeof(item->name)`, from the declaration `char name[64]`. -/
def sizeof_name : Nat := 64

/-- Size of the local `char default_name[20]` of `create_collection`. -/
def sizeof_default_name : Nat := 20

/-! ## Faults -/

/-- Undefined behaviour that the embedding makes visible. -/
inductive Fault where
  | out_of_bounds
  | invalid_free
  | invalid_pointer
  deriving DecidableEq, Repr

/-! ## The heap -/

/-- One entry of the allocation history. -/
inductive Event where
  | acquire (addr : Nat)
  | release (addr : Nat)
  deriving DecidableEq, Repr

/-- The allocator state.  `plan` lists the allocator's answers to the coming
requests (`false`: the request is refused; an exhausted plan refuses nothing);
`junk` gives the indeterminate contents of memory that has not been written. -/
structure Heap where
  live : List Nat
  plan : List Bool
  junk : Nat → Nat
  log : List Event

/-- An address that is not the address of a live block, and is not null. -/
def fresh (live : List Nat) : Nat := live.foldr max 0 + 1

/-- Whether the allocator satisfies a request of `bytes` bytes in state `h`.  A
request that does not fit in a `size_t` is never satisfied. -/
def Heap.grants (h : Heap) (bytes : Nat) : Bool :=
  match h.plan with
  | false :: _ => false
  | _ => decide (bytes < SIZE_MOD)

/-- The heap after a satisfied request: a new live block at a fresh address. -/
def Heap.acquired (h : Heap) : Heap :=
  { h with live := fresh h.live :: h.live, plan := h.plan.tail,
           log := h.log ++ [Event.acquire (fresh h.live)] }

/-- The heap after a refused request. -/
def Heap.refused (h : Heap) : Heap := { h with plan := h.plan.tail }

/-- One allocation request: the address of the new block, or `none` (null). -/
def request (bytes : Nat) (h : Heap) : Option Nat × Heap :=
  if h.grants bytes then (some (fresh h.live), h.acquired) else (none, h.refused)

/-- The heap after the release of the live block `a`. -/
def Heap.released (h : Heap) (a : Nat) : Heap :=
  { h with live := h.live.erase a, log := h.log ++ [Event.release a] }

/-- The allocator refuses none of the next `k` requests. -/
def Heap.willing (h : Heap) (k : Nat) : Prop := ∀ j < k, h.plan[j]? ≠ some false

/-- A block of `char`: its address and its contents. -/
structure CharBuf where
  addr : Nat
  bytes : List Nat
  deriving DecidableEq, Repr

/-- Uninitialised memory of `size` bytes. -/
def uninit (junk : Nat → Nat) (size : Nat) : List Nat := (List.range size).map junk

/-- `malloc(size)`: a block of `size` bytes with indeterminate contents. -/
def malloc (size : Nat) (h : Heap) : Option CharBuf × Heap :=
  match request size h with
  | (some a, h1) => (some ⟨a, uninit h.junk size⟩, h1)
  | (none, h1) => (none, h1)

/-- `free(p)` for a non-null `p`; releasing a block that is not live is a fault. -/
def free (a : Nat) (h : Heap) : Except Fault Heap :=
  if a ∈ h.live then
    .ok (h.released a)
  else
    .error Fault.invalid_free

/-! ## Strings -/

/-- The text of the string stored at `m`: the bytes before the first terminator. -/
def cstr (m : List Nat) : List Nat := m.takeWhile (fun b => decide (b ≠ 0))

/-- `strlen`. -/
def strlen (m : List Nat) : Nat := (cstr m).length

/-- Write `data` into `buf` from offset `off` on. -/
def writeAt (buf : List Nat) (off : Nat) (data : List Nat) : Except Fault (List Nat) :=
  if off + data.length ≤ buf.length then
    .ok (buf.take off ++ data ++ buf.drop (off + data.length))
  else
    .error Fault.out_of_bounds

/-- `strcpy(dest, src)`: the text of `src` and its terminator, from the start of
`dest`. -/
def strcpy (dest src : List Nat) : Except Fault (List Nat) :=
  writeAt dest 0 (cstr src ++ [0])

/-- `strcat(dest, src)`: the text of `src` and its terminator, from the terminator
of `dest` on. -/
def strcat (dest src : List Nat) : Except Fault (List Nat) :=
  writeAt dest (strlen dest) (cstr src ++ [0])

/-- `strncpy(dest, src, n)`: exactly `n` bytes are written, the first `n` bytes of
the text of `src`, padded with zero bytes when the text is shorter. -/
def strncpy (dest src : List Nat) (n : Nat) : Except Fault (List Nat) :=
  writeAt dest 0 ((cstr src).take n ++ List.replicate (n - ((cstr src).take n).length) 0)

/-- The bytes of an ASCII literal. -/
def ascii (s : String) : List Nat := s.toList.map Char.toNat

/-- The conversion `%zu`: the decimal digits of `v`. -/
def fmt_zu (v : Nat) : List Nat := ascii (Nat.repr v)

/-- `sprintf(buf, "Item %zu", v)`. -/
def sprintf_Item (buf : List Nat) (v : Nat) : Except Fault (List Nat) :=
  writeAt buf 0 (ascii "Item " ++ fmt_zu v ++ [0])

/-! ## `add_numbers` -/

/-- `int32_t add_numbers(int32_t a, int32_t b) { return a + b; }`.  C leaves the
overflow of a signed addition undefined; the embedding takes the 32-bit two's
complement result, which is what the targets of the library compute. -/
def add_numbers (a b : Int) : Int := toInt32 (a + b)

/-! ## `concatenate_strings` -/

/-- `char* concatenate_strings(const char* str1, const char* str2)`. -/
def concatenate_strings (str1 str2 : Option (List Nat)) (h : Heap) :
    Except Fault (Option CharBuf × Heap) :=
  match str1, str2 with
  | some s1, some s2 =>
    let len1 := strlen s1
    let len2 := strlen s2
    match malloc ((len1 + len2 + 1) % SIZE_MOD) h with
    | (some result, h1) => do
      let r1 ← strcpy result.bytes s1
      let r2 ← strcat r1 s2
      .ok (some { result with bytes := r2 }, h1)
    | (none, h1) => .ok (none, h1)
  | _, _ => .ok (none, h)

/-! ## `Item` and `initialize_item` -/

/-- `typedef struct { int32_t id; char name[64]; double value; } Item;` -/
structure Item where
  id : Int
  name : List Nat
  value : Float

/-- `void initialize_item(Item* item, int32_t id, const char* name, double value)`.
The items that exist are the list `mem`; `item` is `none` (null) or the position of
the item pointed to. -/
def initialize_item (mem : List Item) (item : Option Nat) (id : Int)
    (name : Option (List Nat)) (value : Float) : Except Fault (List Item) :=
  match item, name with
  | some p, some src =>
    match mem[p]? with
    | none => .error Fault.invalid_pointer
    | some it => do
      let it1 := { it with id := id }
      let n1 ← strncpy it1.name src (sizeof_name - 1)
      let n2 ← writeAt n1 (sizeof_name - 1) [0]
      .ok (mem.set p { it1 with name := n2, value := value })
  | _, _ => .ok mem

/-! ## `Collection` and `create_collection` -/

/-- A block of `Item`: its address and its cells. -/
structure ItemArr where
  addr : Nat
  cells : List Item

/-- `typedef struct { char* title; Item* items; size_t item_count; } Collection;`
together with the address of the structure itself. -/
structure Collection where
  addr : Nat
  title : CharBuf
  items : ItemArr
  item_count : Nat

/-- An `Item` whose bytes are all zero. -/
def zeroItem : Item := { id := 0, name := List.replicate sizeof_name 0, value := 0.0 }

/-- `calloc(nmemb, sizeof(Item))`: a block of `nmemb` items, all bytes zero. -/
def calloc (nmemb size : Nat) (h : Heap) : Option ItemArr × Heap :=
  match request (nmemb * size) h with
  | (some a, h1) => (some ⟨a, List.replicate nmemb zeroItem⟩, h1)
  | (none, h1) => (none, h1)

/-- The loop `for (size_t i = 0; i < item_count; i++) { ... }` of
`create_collection`, started at `i` with `fuel` iterations allowed. -/
def init_loop (junk : Nat → Nat) (item_count : Nat) :
    Nat → Nat → List Item → Except Fault (List Item)
  | 0, _, items => .ok items
  | fuel + 1, i, items =>
    if i < item_count then do
      let default_name := uninit junk sizeof_default_name
      let default_name ← sprintf_Item default_name ((i + 1) % SIZE_MOD)
      let items ← initialize_item items (some i) (toInt32 (i : Int)) (some default_name) 0.0
      init_loop junk item_count fuel ((i + 1) % SIZE_MOD) items
    else
      .ok items

/-- `Collection* create_collection(const char* title, size_t item_count)`. -/
def create_collection (title : Option (List Nat)) (item_count : Nat) (h : Heap) :
    Except Fault (Option Collection × Heap) :=
  match title with
  | none => .ok (none, h)
  | some t =>
    match malloc sizeof_Collection h with
    | (none, h1) => .ok (none, h1)
    | (some collection, h1) =>
      let title_len := strlen t
      match malloc ((title_len + 1) % SIZE_MOD) h1 with
      | (none, h2) => do
        let h3 ← free collection.addr h2
        .ok (none, h3)
      | (some tbuf, h2) => do
        let tbytes ← strcpy tbuf.bytes t
        match calloc item_count sizeof_Item h2 with
        | (none, h3) => do
          let h4 ← free tbuf.addr h3
          let h5 ← free collection.addr h4
          .ok (none, h5)
        | (some arr, h3) => do
          let cells ← init_loop h.junk item_count item_count 0 arr.cells
          .ok (some { addr := collection.addr, title := { tbuf with bytes := tbytes },
                      items := { arr with cells := cells }, item_count := item_count }, h3)

/-- The contents of the `name` field after `initialize_item` has stored `src` in it:
the first 63 bytes of the text, then zero bytes up to the end of the field. -/
def stored_name (src : List Nat) : List Nat :=
  (cstr src).take (sizeof_name - 1) ++
    List.replicate (sizeof_name - ((cstr src).take (sizeof_name - 1)).length) 0

/-- The text that `create_collection` formats for the item at index `i`. -/
def default_name_text (i : Nat) : List Nat := ascii "Item " ++ fmt_zu (i + 1)

/-- The item that `create_collection` stores at index `i`. -/
def default_item (i : Nat) : Item :=
  { id := toInt32 (i : Int), name := stored_name (default_name_text i), value := 0.0 }

/-- The invariant of the `name` field: 64 bytes, the last one a terminator, hence a
terminated text of at most 63 bytes. -/
def name_ok (it : Item) : Prop :=
  it.name.length = sizeof_name ∧ it.name[sizeof_name - 1]? = some 0 ∧
    strlen it.name ≤ sizeof_name - 1

/-! ## `free_collection` -/

/-- `void free_collection(Collection* collection)`. -/
def free_collection (collection : Option Collection) (h : Heap) : Except Fault Heap :=
  match collection with
  | none => .ok h
  | some c => do
    let h1 ← free c.title.addr h
    let h2 ← free c.items.addr h1
    free c.addr h2

/-! ## Well-formed UTF-8 -/

/-- A continuation byte, `0x80 .. 0xBF`. -/
def utf8_cont (b : Nat) : Bool := decide (0x80 ≤ b) && decide (b ≤ 0xBF)

/-- Whether a byte sequence is well-formed UTF-8 (Unicode Standard, table 3-7): a
sequence of one-byte characters `00..7F`, two-byte characters `C2..DF 80..BF`,
three-byte characters `E0 A0..BF 80..BF`, `E1..EC 80..BF 80..BF`, `ED 80..9F 80..BF`,
`EE..EF 80..BF 80..BF`, and four-byte characters `F0 90..BF 80..BF 80..BF`,
`F1..F3 80..BF 80..BF 80..BF`, `F4 80..8F 80..BF 80..BF`. -/
def utf8_valid : List Nat → Bool
  | [] => true
  | b0 :: t0 =>
    if b0 < 0x80 then utf8_valid t0
    else
      match t0 with
      | [] => false
      | b1 :: t1 =>
        if 0xC2 ≤ b0 ∧ b0 ≤ 0xDF then utf8_cont b1 && utf8_valid t1
        else
          match t1 with
          | [] => false
          | b2 :: t2 =>
            if b0 = 0xE0 then
              decide (0xA0 ≤ b1) && decide (b1 ≤ 0xBF) && utf8_cont b2 && utf8_valid t2
            else if (0xE1 ≤ b0 ∧ b0 ≤ 0xEC) ∨ b0 = 0xEE ∨ b0 = 0xEF then
              utf8_cont b1 && utf8_cont b2 && utf8_valid t2
            else if b0 = 0xED then
              decide (0x80 ≤ b1) && decide (b1 ≤ 0x9F) && utf8_cont b2 && utf8_valid t2
            else
              match t2 with
              | [] => false
              | b3 :: t3 =>
                if b0 = 0xF0 then
                  decide (0x90 ≤ b1) && decide (b1 ≤ 0xBF) && utf8_cont b2 && utf8_cont b3 &&
                    utf8_valid t3
                else if 0xF1 ≤ b0 ∧ b0 ≤ 0xF3 then
                  utf8_cont b1 && utf8_cont b2 && utf8_cont b3 && utf8_valid t3
                else if b0 = 0xF4 then
                  decide (0x80 ≤ b1) && decide (b1 ≤ 0x8F) && utf8_cont b2 && utf8_cont b3 &&
                    utf8_valid t3
                else false

/-- The UTF-8 encoding of a text, byte by byte. -/
def utf8_bytes (s : String) : List Nat :=
  s.toList.flatMap (fun c => (String.utf8EncodeChar c).map UInt8.toNat)

/-- The number written by a sequence of decimal digits. -/
def decimal_value (digits : List Nat) : Nat :=
  digits.foldl (fun acc b => 10 * acc + (b - 48)) 0

/-- A heap with no live block, no refusal planned and `0xAA` in unwritten memory. -/
def heap0 : Heap := { live := [], plan := [], junk := fun _ => 170, log := [] }


/-! ## Basic facts about strings and buffers -/

theorem cstr_nil : cstr [] = [] := rfl

theorem cstr_cons (x : Nat) (xs : List Nat) :
    cstr (x :: xs) = if x = 0 then [] else x :: cstr xs := by
  by_cases hx : x = 0 <;> simp [cstr, List.takeWhile_cons, hx]

theorem cstr_ne_zero (m : List Nat) : ∀ b ∈ cstr m, b ≠ 0 := by
  intro b hb
  have := List.mem_takeWhile_imp hb
  simpa using this

theorem cstr_append_zero (s rest : List Nat) (hs : ∀ b ∈ s, b ≠ 0) :
    cstr (s ++ 0 :: rest) = s := by
  induction s with
  | nil => simp [cstr_cons]
  | cons x xs ih =>
    have hx : x ≠ 0 := hs x (by simp)
    have := ih (fun b hb => hs b (by simp [hb]))
    simp [cstr_cons, hx, this]

theorem cstr_of_ne_zero (s : List Nat) (hs : ∀ b ∈ s, b ≠ 0) : cstr s = s := by
  induction s with
  | nil => rfl
  | cons x xs ih =>
    have hx : x ≠ 0 := hs x (by simp)
    have := ih (fun b hb => hs b (by simp [hb]))
    simp [cstr_cons, hx, this]

theorem cstr_length_le (m : List Nat) : strlen m ≤ m.length := by
  unfold strlen
  induction m with
  | nil => simp [cstr_nil]
  | cons x xs ih =>
    by_cases hx : x = 0
    · simp [cstr_cons, hx]
    · simp [cstr_cons, hx]; exact ih

theorem uninit_length (junk : Nat → Nat) (size : Nat) : (uninit junk size).length = size := by
  simp [uninit]

theorem writeAt_ok (buf : List Nat) (off : Nat) (data : List Nat)
    (hfit : off + data.length ≤ buf.length) :
    writeAt buf off data = .ok (buf.take off ++ data ++ buf.drop (off + data.length)) := by
  simp [writeAt, hfit]

theorem fresh_not_mem (live : List Nat) : fresh live ∉ live := by
  have key : ∀ l : List Nat, ∀ a ∈ l, a ≤ l.foldr max 0 := by
    intro l
    induction l with
    | nil => simp
    | cons x xs ih =>
      intro a ha
      simp only [List.mem_cons] at ha
      simp only [List.foldr_cons]
      rcases ha with rfl | ha
      · exact le_max_left _ _
      · exact le_trans (ih a ha) (le_max_right _ _)
  intro hmem
  have := key live _ hmem
  unfold fresh at this
  omega

theorem grants_of_willing (h : Heap) (k bytes : Nat) (hk : 0 < k) (hw : h.willing k)
    (hb : bytes < SIZE_MOD) : h.grants bytes = true := by
  have h0 := hw 0 hk
  unfold Heap.grants
  cases hp : h.plan with
  | nil => simp [hb]
  | cons x xs =>
    cases x with
    | false => simp [hp] at h0
    | true => simp [hb]

theorem malloc_ok (size : Nat) (h : Heap) (hg : h.grants size = true) :
    malloc size h = (some ⟨fresh h.live, uninit h.junk size⟩, h.acquired) := by
  simp [malloc, request, hg]

theorem malloc_refused (size : Nat) (h : Heap) (hg : h.grants size = false) :
    malloc size h = (none, h.refused) := by
  simp [malloc, request, hg]

theorem strcpy_ok (buf src : List Nat) (hfit : strlen src + 1 ≤ buf.length) :
    strcpy buf src = .ok (cstr src ++ 0 :: buf.drop (strlen src + 1)) := by
  unfold strcpy
  rw [writeAt_ok _ _ _ (by simpa [strlen] using hfit)]
  simp [strlen]

theorem strcpy_strcat (buf s1 s2 : List Nat) (hlen : buf.length = strlen s1 + strlen s2 + 1) :
    (strcpy buf s1 >>= fun r1 => strcat r1 s2) = .ok (cstr s1 ++ cstr s2 ++ [0]) := by
  rw [strcpy_ok buf s1 (by omega)]
  show strcat (cstr s1 ++ 0 :: buf.drop (strlen s1 + 1)) s2 = _
  unfold strcat
  have hl : strlen (cstr s1 ++ 0 :: buf.drop (strlen s1 + 1)) = strlen s1 := by
    unfold strlen
    rw [cstr_append_zero _ _ (cstr_ne_zero s1)]
  rw [hl, writeAt_ok]
  · have h1 : strlen s1 = (cstr s1).length := rfl
    have h2 : strlen s2 = (cstr s2).length := rfl
    have ht : List.take (strlen s1) (cstr s1 ++ 0 :: List.drop (strlen s1 + 1) buf) = cstr s1 := by
      rw [h1]; exact List.take_left' rfl
    have hd : List.drop (strlen s1 + (cstr s2 ++ [0]).length)
        (cstr s1 ++ 0 :: List.drop (strlen s1 + 1) buf) = [] := by
      apply List.drop_eq_nil_of_le
      simp
      omega
    rw [ht, hd]
    simp
  · simp
    have h1 : strlen s1 = (cstr s1).length := rfl
    have h2 : strlen s2 = (cstr s2).length := rfl
    omega

theorem concatenate_strings_ok (s1 s2 : List Nat) (h : Heap)
    (hfit : strlen s1 + strlen s2 + 1 < SIZE_MOD) (hw : h.willing 1) :
    concatenate_strings (some s1) (some s2) h =
      .ok (some ⟨fresh h.live, cstr s1 ++ cstr s2 ++ [0]⟩, h.acquired) := by
  unfold concatenate_strings
  simp only [Nat.mod_eq_of_lt hfit]
  rw [malloc_ok _ _ (grants_of_willing h 1 _ (by decide) hw hfit)]
  simp only
  have := strcpy_strcat (uninit h.junk (strlen s1 + strlen s2 + 1)) s1 s2 (uninit_length _ _)
  simp only [bind, Except.bind] at this ⊢
  cases hc : strcpy (uninit h.junk (strlen s1 + strlen s2 + 1)) s1 with
  | error e => simp [hc] at this
  | ok r1 =>
    simp only [hc] at this ⊢
    simp [this]

theorem take_cstr_ne_zero (src : List Nat) (k : Nat) : ∀ b ∈ (cstr src).take k, b ≠ 0 :=
  fun b hb => cstr_ne_zero src b (List.mem_of_mem_take hb)

theorem sizeof_name_eq : sizeof_name = 64 := rfl

theorem take63_length_le (src : List Nat) : (List.take 63 (cstr src)).length ≤ 63 := by
  simp [List.length_take]

theorem stored_name_eq (src : List Nat) :
    stored_name src = List.take 63 (cstr src) ++
      List.replicate (64 - (List.take 63 (cstr src)).length) 0 := rfl

theorem stored_name_length (src : List Nat) : (stored_name src).length = sizeof_name := by
  have := take63_length_le src
  rw [stored_name_eq, sizeof_name_eq, List.length_append, List.length_replicate]
  omega

theorem cstr_stored_name (src : List Nat) :
    cstr (stored_name src) = (cstr src).take (sizeof_name - 1) := by
  have hle := take63_length_le src
  rw [stored_name_eq, sizeof_name_eq]
  have hk : 64 - (List.take 63 (cstr src)).length =
      (63 - (List.take 63 (cstr src)).length) + 1 := by omega
  rw [hk, List.replicate_succ]
  exact cstr_append_zero _ _ (take_cstr_ne_zero src _)

theorem stored_name_last (src : List Nat) : (stored_name src)[sizeof_name - 1]? = some 0 := by
  have hle := take63_length_le src
  rw [stored_name_eq, sizeof_name_eq]
  rw [List.getElem?_append_right hle, List.getElem?_replicate]
  rw [if_pos (by omega)]

/-- The two writes of `initialize_item` into a 64-byte name field. -/
theorem name_writes (old src : List Nat) (hold : old.length = sizeof_name) :
    (strncpy old src (sizeof_name - 1) >>= fun n1 => writeAt n1 (sizeof_name - 1) [0]) =
      .ok (stored_name src) := by
  have hle := take63_length_le src
  rw [sizeof_name_eq] at hold
  rw [stored_name_eq, sizeof_name_eq]
  show (strncpy old src 63 >>= fun n1 => writeAt n1 63 [0]) = _
  unfold strncpy
  rw [writeAt_ok]
  · show writeAt _ 63 [0] = _
    rw [writeAt_ok]
    · simp only [List.take_zero, List.nil_append, List.length_append, List.length_replicate,
        Nat.zero_add, List.length_singleton]
      have e1 : ((cstr src).take 63).length + (63 - ((cstr src).take 63).length) = 63 := by omega
      rw [e1]
      have e2 : List.take 63 ((List.take 63 (cstr src) ++
          List.replicate (63 - (List.take 63 (cstr src)).length) 0) ++ List.drop 63 old) =
          List.take 63 (cstr src) ++ List.replicate (63 - (List.take 63 (cstr src)).length) 0 := by
        apply List.take_left'
        simp only [List.length_append, List.length_replicate]
        omega
      have e3 : List.drop (63 + 1) ((List.take 63 (cstr src) ++
          List.replicate (63 - (List.take 63 (cstr src)).length) 0) ++ List.drop 63 old) = [] := by
        apply List.drop_eq_nil_of_le
        simp only [List.length_append, List.length_replicate, List.length_drop]
        omega
      rw [e2, e3]
      have e4 : 64 - (List.take 63 (cstr src)).length =
          (63 - (List.take 63 (cstr src)).length) + 1 := by omega
      rw [e4, List.replicate_succ']
      simp
    · simp only [List.length_append, List.length_replicate, List.length_drop, List.length_take,
        List.length_singleton]
      omega
  · simp only [List.length_append, List.length_replicate]
    omega

theorem initialize_item_ok (mem : List Item) (p : Nat) (it : Item) (id : Int)
    (src : List Nat) (value : Float) (hp : mem[p]? = some it)
    (hname : it.name.length = sizeof_name) :
    initialize_item mem (some p) id (some src) value =
      .ok (mem.set p { id := id, name := stored_name src, value := value }) := by
  unfold initialize_item
  simp only [hp]
  have := name_writes it.name src hname
  simp only [bind, Except.bind] at this ⊢
  cases hc : strncpy it.name src (sizeof_name - 1) with
  | error e => simp [hc] at this
  | ok n1 =>
    simp only [hc] at this ⊢
    simp [this]

/-! ## Facts about the formatted default name -/

theorem digitChar_toNat_ne_zero : ∀ d < 10, (Nat.digitChar d).toNat ≠ 0 := by decide

theorem toDigitsCore_mem : ∀ (fuel n : Nat) (acc : List Char) (c : Char),
    c ∈ Nat.toDigitsCore 10 fuel n acc → c ∈ acc ∨ ∃ d < 10, c = Nat.digitChar d := by
  intro fuel
  induction fuel with
  | zero => intro n acc c hc; left; simpa [Nat.toDigitsCore] using hc
  | succ f ih =>
    intro n acc c hc
    have hlt : n % 10 < 10 := Nat.mod_lt _ (by decide)
    simp only [Nat.toDigitsCore] at hc
    split_ifs at hc with h0
    · simp only [List.mem_cons] at hc
      rcases hc with rfl | hc
      · right; exact ⟨_, hlt, rfl⟩
      · left; exact hc
    · rcases ih _ _ _ hc with h | h
      · simp only [List.mem_cons] at h
        rcases h with rfl | h
        · right; exact ⟨_, hlt, rfl⟩
        · left; exact h
      · right; exact h

theorem fmt_zu_ne_zero (v : Nat) : ∀ b ∈ fmt_zu v, b ≠ 0 := by
  intro b hb
  simp only [fmt_zu, ascii, Nat.repr, Nat.toDigits, List.asString, List.mem_map] at hb
  obtain ⟨c, hc, rfl⟩ := hb
  rcases toDigitsCore_mem _ _ _ c hc with h | ⟨d, hd, rfl⟩
  · simp at h
  · exact digitChar_toNat_ne_zero d hd

theorem fmt_zu_length (v e : Nat) (he : 0 < e) (hv : v < 10 ^ e) : (fmt_zu v).length ≤ e := by
  have := Nat.repr_length v e he hv
  show ((Nat.repr v).toList.map Char.toNat).length ≤ e
  rw [List.length_map]
  exact this

theorem default_name_text_ne_zero (i : Nat) : ∀ b ∈ default_name_text i, b ≠ 0 := by
  intro b hb
  simp only [default_name_text, List.mem_append] at hb
  rcases hb with hb | hb
  · revert b; decide
  · exact fmt_zu_ne_zero _ b hb

theorem default_name_text_length (i : Nat) (hi : i + 1 < 10 ^ 14) :
    (default_name_text i).length ≤ 19 := by
  have := fmt_zu_length (i + 1) 14 (by decide) hi
  have h5 : (ascii "Item ").length = 5 := by decide
  simp only [default_name_text, List.length_append, h5]
  omega

theorem sprintf_Item_ok (junk : Nat → Nat) (i : Nat) (hi : i + 1 < 10 ^ 14) :
    ∃ rest, sprintf_Item (uninit junk sizeof_default_name) (i + 1) =
      .ok (default_name_text i ++ 0 :: rest) := by
  have hl := default_name_text_length i hi
  unfold sprintf_Item
  rw [writeAt_ok]
  · refine ⟨List.drop (0 + (ascii "Item " ++ fmt_zu (i + 1) ++ [0]).length)
      (uninit junk sizeof_default_name), ?_⟩
    simp only [List.take_zero, List.nil_append, List.append_assoc, List.singleton_append,
      default_name_text]
  · rw [uninit_length]
    simp only [default_name_text] at hl
    simp only [List.length_append, List.length_singleton, sizeof_default_name] at hl ⊢
    omega

/-! ## The initialisation loop -/

theorem take_set_self {α : Type} (l : List α) (i : Nat) (a : α) :
    (l.set i a).take i = l.take i := by
  apply List.ext_getElem?
  intro j
  rw [List.getElem?_take, List.getElem?_take]
  split
  · next hj => rw [List.getElem?_set_ne (by omega)]
  · rfl

theorem stored_name_congr (a b : List Nat) (hab : cstr a = cstr b) :
    stored_name a = stored_name b := by
  unfold stored_name
  rw [hab]

theorem default_item_name_length (i : Nat) : (default_item i).name.length = sizeof_name :=
  stored_name_length _

theorem init_loop_ok (junk : Nat → Nat) (n : Nat) (hn : n < 10 ^ 14) :
    ∀ (fuel i : Nat) (items : List Item), items.length = n →
      (∀ it ∈ items, it.name.length = sizeof_name) → i ≤ n → n - i ≤ fuel →
      init_loop junk n fuel i items =
        .ok (items.take i ++ (List.range' i (n - i)).map default_item) := by
  intro fuel
  induction fuel with
  | zero =>
    intro i items hlen _ hi hfuel
    have hin : i = n := by omega
    subst hin
    simp [init_loop, ← hlen]
  | succ f ih =>
    intro i items hlen hnames hi hfuel
    unfold init_loop
    by_cases hlt : i < n
    · rw [if_pos hlt]
      have hmod : (i + 1) % SIZE_MOD = i + 1 := by
        apply Nat.mod_eq_of_lt
        have : (10 : Nat) ^ 14 < SIZE_MOD := by decide
        omega
      rw [hmod]
      obtain ⟨rest, hs⟩ := sprintf_Item_ok junk i (by omega)
      dsimp only
      rw [hs]
      show (initialize_item items (some i) (toInt32 (i : Int))
          (some (default_name_text i ++ 0 :: rest)) 0.0 >>= fun items1 =>
          init_loop junk n f (i + 1) items1) = _
      have hget : ∃ it, items[i]? = some it := by
        have hi2 : i < items.length := by omega
        exact ⟨items[i], List.getElem?_eq_getElem hi2⟩
      obtain ⟨it, hit⟩ := hget
      have hmem : it ∈ items := List.getElem?_mem hit
      rw [initialize_item_ok items i it _ _ _ hit (hnames it hmem)]
      have hname : stored_name (default_name_text i ++ 0 :: rest) =
          stored_name (default_name_text i) := by
        apply stored_name_congr
        rw [cstr_append_zero _ _ (default_name_text_ne_zero i),
          cstr_of_ne_zero _ (default_name_text_ne_zero i)]
      rw [hname]
      show init_loop junk n f (i + 1) (items.set i (default_item i)) = _
      rw [ih (i + 1) (items.set i (default_item i)) (by simp [hlen])
        (by
          intro x hx
          rcases List.mem_or_eq_of_mem_set hx with h | h
          · exact hnames x h
          · rw [h]; exact default_item_name_length i)
        (by omega) (by omega)]
      have hr : n - i = (n - (i + 1)) + 1 := by omega
      rw [hr, List.range'_succ, List.take_succ, List.getElem?_set_self (by omega),
        take_set_self]
      simp
    · rw [if_neg hlt]
      have hin : i = n := by omega
      subst hin
      simp [← hlen]

theorem init_loop_all (junk : Nat → Nat) (n : Nat) (hn : n < 10 ^ 14) :
    init_loop junk n n 0 (List.replicate n zeroItem) =
      .ok ((List.range n).map default_item) := by
  rw [init_loop_ok junk n hn n 0 (List.replicate n zeroItem) (by simp)
    (by
      intro it hit
      rw [List.eq_of_mem_replicate hit]
      rfl)
    (by omega) (by omega)]
  simp [List.range_eq_range']

theorem sprintf_Item_overflow (junk : Nat → Nat) :
    sprintf_Item (uninit junk sizeof_default_name) 100000000000000 =
      .error Fault.out_of_bounds := by
  have hl : (ascii "Item " ++ fmt_zu 100000000000000 ++ [0]).length = 21 := by decide
  unfold sprintf_Item writeAt
  rw [if_neg]
  rw [hl, uninit_length]
  decide

theorem init_loop_overflows (junk : Nat → Nat) (n : Nat) (hn : 10 ^ 14 ≤ n) :
    ∀ (fuel i : Nat) (items : List Item), items.length = n →
      (∀ it ∈ items, it.name.length = sizeof_name) → i < 10 ^ 14 → n - i ≤ fuel →
      init_loop junk n fuel i items = .error Fault.out_of_bounds := by
  intro fuel
  induction fuel with
  | zero =>
    intro i items _ _ hi hfuel
    omega
  | succ f ih =>
    intro i items hlen hnames hi hfuel
    unfold init_loop
    have hlt : i < n := by omega
    rw [if_pos hlt]
    have hmod : (i + 1) % SIZE_MOD = i + 1 := by
      apply Nat.mod_eq_of_lt
      have : (10 : Nat) ^ 14 < SIZE_MOD := by decide
      omega
    rw [hmod]
    dsimp only
    by_cases hlast : i + 1 < 10 ^ 14
    · obtain ⟨rest, hs⟩ := sprintf_Item_ok junk i hlast
      rw [hs]
      show (initialize_item items (some i) (toInt32 (i : Int))
          (some (default_name_text i ++ 0 :: rest)) 0.0 >>= fun items1 =>
          init_loop junk n f (i + 1) items1) = _
      have hi2 : i < items.length := by omega
      have hit : items[i]? = some items[i] := List.getElem?_eq_getElem hi2
      rw [initialize_item_ok items i _ _ _ _ hit (hnames _ (List.getElem?_mem hit))]
      show init_loop junk n f (i + 1) (items.set i _) = _
      apply ih (i + 1) _ (by simp [hlen]) _ hlast (by omega)
      intro x hx
      rcases List.mem_or_eq_of_mem_set hx with h | h
      · exact hnames x h
      · rw [h]; exact stored_name_length _
    · have hi1 : i + 1 = 100000000000000 := by
        have : (10 : Nat) ^ 14 = 100000000000000 := by norm_num
        omega
      rw [hi1, sprintf_Item_overflow]
      rfl

/-! ## The three allocation steps of `create_collection` -/

theorem willing_acquired (h : Heap) (k : Nat) (hw : h.willing (k + 1)) : h.acquired.willing k := by
  intro j hj
  have := hw (j + 1) (by omega)
  simpa [Heap.acquired, List.getElem?_tail] using this

theorem free_ok (a : Nat) (h : Heap) (ha : a ∈ h.live) : free a h = .ok (h.released a) := by
  simp [free, ha]

theorem calloc_ok (nmemb size : Nat) (h : Heap) (hg : h.grants (nmemb * size) = true) :
    calloc nmemb size h = (some ⟨fresh h.live, List.replicate nmemb zeroItem⟩, h.acquired) := by
  simp [calloc, request, hg]

theorem calloc_refused (nmemb size : Nat) (h : Heap) (hg : h.grants (nmemb * size) = false) :
    calloc nmemb size h = (none, h.refused) := by
  simp [calloc, request, hg]

theorem strcpy_exact (junk : Nat → Nat) (t : List Nat) :
    strcpy (uninit junk (strlen t + 1)) t = .ok (cstr t ++ [0]) := by
  rw [strcpy_ok _ _ (by rw [uninit_length])]
  rw [List.drop_eq_nil_of_le (by rw [uninit_length])]

theorem create_collection_ok (t : List Nat) (n : Nat) (h : Heap) (hw : h.willing 3)
    (ht : strlen t + 1 < SIZE_MOD) (hn : n < 10 ^ 14) :
    create_collection (some t) n h =
      .ok (some { addr := fresh h.live,
                  title := ⟨fresh h.acquired.live, cstr t ++ [0]⟩,
                  items := ⟨fresh h.acquired.acquired.live, (List.range n).map default_item⟩,
                  item_count := n },
           h.acquired.acquired.acquired) := by
  have hw2 := willing_acquired h 2 hw
  have hw1 := willing_acquired h.acquired 1 hw2
  have hsz : n * sizeof_Item < SIZE_MOD := by
    have : (10 : Nat) ^ 14 * 80 < SIZE_MOD := by decide
    simp only [sizeof_Item]
    omega
  unfold create_collection
  simp only []
  rw [malloc_ok _ _ (grants_of_willing h 3 _ (by decide) hw (by decide))]
  simp only [Nat.mod_eq_of_lt ht]
  rw [malloc_ok _ _ (grants_of_willing _ 2 _ (by decide) hw2 ht)]
  simp only []
  rw [show h.acquired.junk = h.junk from rfl, strcpy_exact]
  simp only [bind, Except.bind]
  rw [calloc_ok _ _ _ (grants_of_willing _ 1 _ (by decide) hw1 hsz)]
  simp only []
  rw [init_loop_all h.junk n hn]

theorem create_collection_overflows (t : List Nat) (n : Nat) (h : Heap) (hw : h.willing 3)
    (ht : strlen t + 1 < SIZE_MOD) (hn : 10 ^ 14 ≤ n) (hsz : n * sizeof_Item < SIZE_MOD) :
    create_collection (some t) n h = .error Fault.out_of_bounds := by
  have hw2 := willing_acquired h 2 hw
  have hw1 := willing_acquired h.acquired 1 hw2
  unfold create_collection
  simp only []
  rw [malloc_ok _ _ (grants_of_willing h 3 _ (by decide) hw (by decide))]
  simp only [Nat.mod_eq_of_lt ht]
  rw [malloc_ok _ _ (grants_of_willing _ 2 _ (by decide) hw2 ht)]
  simp only []
  rw [show h.acquired.junk = h.junk from rfl, strcpy_exact]
  simp only [bind, Except.bind]
  rw [calloc_ok _ _ _ (grants_of_willing _ 1 _ (by decide) hw1 hsz)]
  simp only []
  rw [init_loop_overflows h.junk n hn n 0 (List.replicate n zeroItem) (by simp)
    (by
      intro it hit
      rw [List.eq_of_mem_replicate hit]
      rfl)
    (by norm_num) (by omega)]

theorem create_collection_fail1 (t : List Nat) (n : Nat) (h : Heap)
    (h1 : h.grants sizeof_Collection = false) :
    create_collection (some t) n h = .ok (none, h.refused) := by
  unfold create_collection
  simp only []
  rw [malloc_refused _ _ h1]

theorem create_collection_fail2 (t : List Nat) (n : Nat) (h : Heap)
    (h1 : h.grants sizeof_Collection = true)
    (h2 : h.acquired.grants ((strlen t + 1) % SIZE_MOD) = false) :
    create_collection (some t) n h =
      .ok (none, h.acquired.refused.released (fresh h.live)) := by
  unfold create_collection
  simp only []
  rw [malloc_ok _ _ h1]
  simp only []
  rw [malloc_refused _ _ h2]
  simp only []
  rw [free_ok _ _ (by simp [Heap.acquired, Heap.refused])]
  rfl

theorem create_collection_fail3 (t : List Nat) (n : Nat) (h : Heap)
    (ht : strlen t + 1 < SIZE_MOD)
    (h1 : h.grants sizeof_Collection = true)
    (h2 : h.acquired.grants (strlen t + 1) = true)
    (h3 : h.acquired.acquired.grants (n * sizeof_Item) = false) :
    create_collection (some t) n h =
      .ok (none, ((h.acquired.acquired.refused.released (fresh h.acquired.live)).released
        (fresh h.live))) := by
  unfold create_collection
  simp only []
  rw [malloc_ok _ _ h1]
  simp only [Nat.mod_eq_of_lt ht]
  rw [malloc_ok _ _ h2]
  simp only []
  rw [show h.acquired.junk = h.junk from rfl, strcpy_exact]
  simp only [bind, Except.bind]
  rw [calloc_refused _ _ _ h3]
  simp only []
  rw [free_ok _ _ (by simp [Heap.acquired, Heap.refused])]
  simp only []
  rw [free_ok _ _ (by simp [Heap.acquired, Heap.refused, Heap.released])]

theorem tail_tail_eq_drop {α : Type} (l : List α) : l.tail.tail = l.drop 2 := by
  cases l with
  | nil => rfl
  | cons x xs => cases xs <;> rfl

theorem tail_tail_tail_eq_drop {α : Type} (l : List α) : l.tail.tail.tail = l.drop 3 := by
  cases l with
  | nil => rfl
  | cons x xs =>
    cases xs with
    | nil => rfl
    | cons y ys => cases ys <;> rfl

theorem grants_eq_true_iff (h : Heap) (bytes : Nat) :
    h.grants bytes = true ↔ h.plan[0]? ≠ some false ∧ bytes < SIZE_MOD := by
  unfold Heap.grants
  cases hp : h.plan with
  | nil => simp
  | cons x xs => cases x <;> simp

theorem create_collection_fails (t : List Nat) (n : Nat) (h : Heap)
    (ht : strlen t + 1 < SIZE_MOD)
    (hfail : (∃ j < 3, h.plan[j]? = some false) ∨ SIZE_MOD ≤ n * sizeof_Item) :
    ∃ evs, create_collection (some t) n h =
        .ok (none, { live := h.live, plan := h.plan.drop (evs.length / 2 + 1), junk := h.junk,
                     log := h.log ++ evs }) ∧
      (evs = [] ∨ evs = [Event.acquire (fresh h.live), Event.release (fresh h.live)] ∨
       evs = [Event.acquire (fresh h.live), Event.acquire (fresh (fresh h.live :: h.live)),
              Event.release (fresh (fresh h.live :: h.live)), Event.release (fresh h.live)]) := by
  by_cases g1 : h.grants sizeof_Collection = true
  · by_cases g2 : h.acquired.grants (strlen t + 1) = true
    · have g3 : h.acquired.acquired.grants (n * sizeof_Item) = false := by
        by_contra hc
        have g3 : h.acquired.acquired.grants (n * sizeof_Item) = true := by simpa using hc
        rw [grants_eq_true_iff] at g1 g2 g3
        simp only [Heap.acquired, List.getElem?_tail] at g2 g3
        rcases hfail with ⟨j, hj, hjf⟩ | hsz
        · have : j = 0 ∨ j = 1 ∨ j = 2 := by omega
          rcases this with rfl | rfl | rfl
          · exact g1.1 hjf
          · exact g2.1 hjf
          · exact g3.1 hjf
        · omega
      refine ⟨_, ?_, Or.inr (Or.inr rfl)⟩
      rw [create_collection_fail3 t n h ht g1 g2 g3]
      have e1 : (fresh h.live :: h.live).erase (fresh h.live) = h.live := by simp
      simp [Heap.acquired, Heap.refused, Heap.released, e1, tail_tail_tail_eq_drop]
    · refine ⟨_, ?_, Or.inr (Or.inl rfl)⟩
      rw [create_collection_fail2 t n h g1 (by simpa [Nat.mod_eq_of_lt ht] using g2)]
      simp [Heap.acquired, Heap.refused, Heap.released, tail_tail_eq_drop]
  · refine ⟨_, ?_, Or.inl rfl⟩
    rw [create_collection_fail1 t n h (by simpa using g1)]
    simp [Heap.refused]

/-! ## The invariant of the name field -/

theorem name_ok_stored (id : Int) (src : List Nat) (value : Float) :
    name_ok { id := id, name := stored_name src, value := value } := by
  refine ⟨stored_name_length src, stored_name_last src, ?_⟩
  show (cstr (stored_name src)).length ≤ sizeof_name - 1
  rw [cstr_stored_name]
  exact take63_length_le src

theorem name_ok_zeroItem : name_ok zeroItem := by
  refine ⟨rfl, by decide, by decide⟩

theorem initialize_item_inv (mem mem1 : List Item) (item : Option Nat) (id : Int)
    (name : Option (List Nat)) (value : Float) (hmem : ∀ it ∈ mem, name_ok it)
    (hr : initialize_item mem item id name value = .ok mem1) : ∀ it ∈ mem1, name_ok it := by
  cases item with
  | none =>
    have : mem1 = mem := by simpa [initialize_item] using hr.symm
    rw [this]; exact hmem
  | some p =>
    cases name with
    | none =>
      have : mem1 = mem := by simpa [initialize_item] using hr.symm
      rw [this]; exact hmem
    | some src =>
      cases hp : mem[p]? with
      | none => simp [initialize_item, hp] at hr
      | some it0 =>
        rw [initialize_item_ok mem p it0 id src value hp (hmem it0 (List.getElem?_mem hp)).1] at hr
        have : mem1 = mem.set p { id := id, name := stored_name src, value := value } := by
          simpa using hr.symm
        rw [this]
        intro it hit
        rcases List.mem_or_eq_of_mem_set hit with h | h
        · exact hmem it h
        · rw [h]; exact name_ok_stored id src value

theorem init_loop_inv (junk : Nat → Nat) (n : Nat) :
    ∀ (fuel i : Nat) (items cells : List Item), (∀ it ∈ items, name_ok it) →
      init_loop junk n fuel i items = .ok cells → ∀ it ∈ cells, name_ok it := by
  intro fuel
  induction fuel with
  | zero =>
    intro i items cells hitems hr
    have : cells = items := by simpa [init_loop] using hr.symm
    rw [this]; exact hitems
  | succ f ih =>
    intro i items cells hitems hr
    unfold init_loop at hr
    by_cases hlt : i < n
    · rw [if_pos hlt] at hr
      dsimp only at hr
      cases hs : sprintf_Item (uninit junk sizeof_default_name) ((i + 1) % SIZE_MOD) with
      | error e => simp [hs, bind, Except.bind] at hr
      | ok d =>
        cases hi : initialize_item items (some i) (toInt32 (i : Int)) (some d) 0.0 with
        | error e => simp [hs, hi, bind, Except.bind] at hr
        | ok items1 =>
          simp only [hs, hi, bind, Except.bind] at hr
          exact ih _ items1 cells (initialize_item_inv _ _ _ _ _ _ hitems hi) hr
    · rw [if_neg hlt] at hr
      have : cells = items := by simpa using hr.symm
      rw [this]; exact hitems

theorem calloc_cells (nmemb size : Nat) (h h1 : Heap) (arr : ItemArr)
    (hc : calloc nmemb size h = (some arr, h1)) : arr.cells = List.replicate nmemb zeroItem := by
  unfold calloc request at hc
  by_cases hg : h.grants (nmemb * size) = true
  · simp only [hg, if_true, Prod.mk.injEq, Option.some.injEq] at hc
    rw [← hc.1]
  · simp [hg] at hc

theorem create_collection_inv (title : Option (List Nat)) (n : Nat) (h h1 : Heap)
    (c : Collection) (hr : create_collection title n h = .ok (some c, h1)) :
    ∀ it ∈ c.items.cells, name_ok it := by
  cases title with
  | none => simp [create_collection] at hr
  | some t =>
    unfold create_collection at hr
    simp only [bind, Except.bind] at hr
    split at hr
    · simp at hr
    · split at hr
      · split at hr <;> simp at hr
      · split at hr
        · simp at hr
        · split at hr
          · split at hr
            · simp at hr
            · split at hr <;> simp at hr
          · split at hr
            · simp at hr
            · rename_i x arr h3 hcal xe cells hloop
              have hc : c.items.cells = cells := by
                simp only [Except.ok.injEq, Prod.mk.injEq, Option.some.injEq] at hr
                rw [← hr.1]
              rw [hc]
              rw [calloc_cells _ _ _ _ _ hcal] at hloop
              refine init_loop_inv h.junk n n 0 _ cells ?_ hloop
              intro it hit
              rw [List.eq_of_mem_replicate hit]
              exact name_ok_zeroItem

theorem toInt32_of_lt (i : Nat) (hi : i < 2 ^ 31) : toInt32 (i : Int) = (i : Int) := by
  unfold toInt32
  omega

theorem cstr_default_item_name (i : Nat) (hi : i + 1 < 10 ^ 14) :
    cstr (default_item i).name = default_name_text i := by
  show cstr (stored_name (default_name_text i)) = _
  rw [cstr_stored_name, cstr_of_ne_zero _ (default_name_text_ne_zero i)]
  apply List.take_of_length_le
  have := default_name_text_length i hi
  rw [sizeof_name_eq]
  omega

theorem cells_getElem? (n i : Nat) (hi : i < n) :
    ((List.range n).map default_item)[i]? = some (default_item i) := by
  rw [List.getElem?_map, List.getElem?_range hi]
  rfl

theorem create_collection_cell (t : List Nat) (n : Nat) (h : Heap) (hw : h.willing 3)
    (ht : strlen t + 1 < SIZE_MOD) (hn : n < 10 ^ 14) (i : Nat) (hi : i < n) :
    ∃ c h1, create_collection (some t) n h = .ok (some c, h1) ∧
      c.items.cells[i]? = some (default_item i) :=
  ⟨_, _, create_collection_ok t n h hw ht hn, cells_getElem? n i hi⟩

/-- The example `create_collection("Test", 3)`, evaluated. -/
theorem create_collection_Test_3 :
    ∃ c h1, create_collection (some (ascii "Test")) 3 heap0 = .ok (some c, h1) ∧
      cstr c.title.bytes = ascii "Test" ∧ c.item_count = 3 ∧
      c.items.cells.map (fun it => (it.id, cstr it.name)) =
        [(0, ascii "Item 1"), (1, ascii "Item 2"), (2, ascii "Item 3")] ∧
      c.items.cells.map (fun it => it.value) = [0.0, 0.0, 0.0] ∧
      h1.live = [3, 2, 1] :=
  ⟨_, _, rfl, by decide, rfl, by decide, rfl, rfl⟩

/-! ## The claims -/

/-- C1 (as amended): for every present title `t` (the empty title included) and every
`item_count` `n` below `10^14`, when the three allocations succeed `create_collection`
returns a collection whose title is `t`, whose `item_count` is `n`, and whose item at
every index `i < n` has `id` equal to `i` converted to `int32_t` (which is `i` itself
when `i < 2^31`), name `"Item "` followed by the decimal rendering of `i + 1`, and
value `0.0`. -/
theorem create_collection_spec (t : List Nat) (n : Nat) (h : Heap)
    (hw : h.willing 3) (ht : strlen t + 1 < SIZE_MOD) (hn : n < 10 ^ 14) :
    ∃ c h1, create_collection (some t) n h = .ok (some c, h1) ∧
      c.title.bytes = cstr t ++ [0] ∧ cstr c.title.bytes = cstr t ∧
      c.item_count = n ∧ c.items.cells.length = n ∧
      ∀ i : Nat, i < n → ∃ it, c.items.cells[i]? = some it ∧
        it.id = toInt32 (i : Int) ∧ (i < 2 ^ 31 → it.id = (i : Int)) ∧
        cstr it.name = ascii "Item " ++ ascii (Nat.repr (i + 1)) ∧ it.value = 0.0 := by
  refine ⟨_, _, create_collection_ok t n h hw ht hn, rfl, ?_, rfl, by simp, ?_⟩
  · exact cstr_append_zero _ _ (cstr_ne_zero t)
  · intro i hi
    refine ⟨default_item i, cells_getElem? n i hi, rfl, ?_, ?_, rfl⟩
    · intro h31
      exact toInt32_of_lt i h31
    · exact cstr_default_item_name i (by omega)

/-- Witness of C1: the collection `create_collection("Test", 3)` on a heap that
refuses nothing. -/
theorem create_collection_spec_witness :
    heap0.willing 3 ∧ strlen (ascii "Test") + 1 < SIZE_MOD ∧ 3 < 10 ^ 14 ∧
    ∃ c h1, create_collection (some (ascii "Test")) 3 heap0 = .ok (some c, h1) ∧
      c.title.bytes = cstr (ascii "Test") ++ [0] ∧ cstr c.title.bytes = cstr (ascii "Test") ∧
      c.item_count = 3 ∧ c.items.cells.length = 3 ∧
      ∀ i : Nat, i < 3 → ∃ it, c.items.cells[i]? = some it ∧
        it.id = toInt32 (i : Int) ∧ (i < 2 ^ 31 → it.id = (i : Int)) ∧
        cstr it.name = ascii "Item " ++ ascii (Nat.repr (i + 1)) ∧ it.value = 0.0 :=
  ⟨by intro j _; simp [heap0], by decide, by decide,
    create_collection_spec (ascii "Test") 3 heap0 (by intro j _; simp [heap0]) (by decide)
      (by decide)⟩

/-- C1 (counterexample): with the title `"Test"` and `item_count = 2147483649`
(`2^31 + 1`), all allocations succeeding, the item at index `2147483648` (`2^31`) has
`id = -2147483648`, which is not its index. -/
theorem create_collection_id_narrowed :
    ∃ c h1, create_collection (some (ascii "Test")) 2147483649 heap0 = .ok (some c, h1) ∧
      ∃ it, c.items.cells[2147483648]? = some it ∧ it.id = -2147483648 ∧
        it.id ≠ 2147483648 := by
  have hw : heap0.willing 3 := by intro j _; simp [heap0]
  have ht : strlen (ascii "Test") + 1 < SIZE_MOD := by decide
  have hn : 2147483649 < 10 ^ 14 := by norm_num
  have hi : 2147483648 < 2147483649 := by norm_num
  obtain ⟨c, h1, hc, hg⟩ :=
    create_collection_cell (ascii "Test") 2147483649 heap0 hw ht hn 2147483648 hi
  refine ⟨c, h1, hc, default_item 2147483648, hg, ?_, ?_⟩
  · show toInt32 ((2147483648 : Nat) : Int) = -2147483648
    unfold toInt32
    norm_num
  · show toInt32 ((2147483648 : Nat) : Int) ≠ 2147483648
    unfold toInt32
    norm_num

/-- C2: for every present item (a valid position `p` whose name field has 64 bytes)
and every present name `src`, `initialize_item` stores in the name field the first
`min (strlen src) 63` bytes of `src` followed by a terminator: a name longer than 63
bytes is cut to exactly its first 63 bytes, a name of at most 63 bytes is stored
unchanged; no write leaves the field (the call does not fault, the field keeps its 64
bytes, the other fields hold `id` and `value`, and no other item changes). -/
theorem initialize_item_truncates (mem : List Item) (p : Nat) (it : Item) (id : Int)
    (src : List Nat) (value : Float) (hp : mem[p]? = some it)
    (hname : it.name.length = sizeof_name) :
    ∃ it1, initialize_item mem (some p) id (some src) value = .ok (mem.set p it1) ∧
      it1.id = id ∧ it1.value = value ∧ it1.name.length = sizeof_name ∧
      cstr it1.name = (cstr src).take (min (strlen src) 63) ∧
      it1.name[min (strlen src) 63]? = some 0 ∧
      (63 < strlen src → cstr it1.name = (cstr src).take 63 ∧ strlen it1.name = 63) ∧
      (strlen src ≤ 63 → cstr it1.name = cstr src) := by
  have hc : cstr (stored_name src) = List.take 63 (cstr src) := cstr_stored_name src
  have hlen : (List.take 63 (cstr src)).length = min (strlen src) 63 := by
    rw [List.length_take, Nat.min_comm]; rfl
  refine ⟨{ id := id, name := stored_name src, value := value },
    initialize_item_ok mem p it id src value hp hname, rfl, rfl, stored_name_length src,
    ?_, ?_, ?_, ?_⟩
  · show cstr (stored_name src) = _
    rw [hc]
    by_cases h63 : strlen src ≤ 63
    · rw [Nat.min_eq_left h63, List.take_of_length_le h63]
      exact (List.take_of_length_le (le_refl _)).symm
    · rw [Nat.min_eq_right (by omega)]
  · show (stored_name src)[min (strlen src) 63]? = some 0
    rw [stored_name_eq, ← hlen, List.getElem?_append_right (le_refl _),
      List.getElem?_replicate, if_pos (by have := take63_length_le src; omega)]
  · intro h63
    refine ⟨hc, ?_⟩
    show (cstr (stored_name src)).length = 63
    rw [hc, hlen]
    omega
  · intro h63
    show cstr (stored_name src) = _
    rw [hc]
    exact List.take_of_length_le h63

/-- Witness of C2: a 70-byte name stored into the only item of a one-item memory. -/
theorem initialize_item_truncates_witness :
    [zeroItem][0]? = some zeroItem ∧ zeroItem.name.length = sizeof_name ∧
    ∃ it1, initialize_item [zeroItem] (some 0) 7 (some (List.replicate 70 65)) 1.5 =
        .ok ([zeroItem].set 0 it1) ∧
      it1.id = 7 ∧ it1.value = 1.5 ∧ it1.name.length = sizeof_name ∧
      cstr it1.name = (cstr (List.replicate 70 65)).take (min (strlen (List.replicate 70 65)) 63) ∧
      it1.name[min (strlen (List.replicate 70 65)) 63]? = some 0 ∧
      (63 < strlen (List.replicate 70 65) →
        cstr it1.name = (cstr (List.replicate 70 65)).take 63 ∧ strlen it1.name = 63) ∧
      (strlen (List.replicate 70 65) ≤ 63 → cstr it1.name = cstr (List.replicate 70 65)) :=
  ⟨rfl, rfl, initialize_item_truncates [zeroItem] 0 zeroItem 7 (List.replicate 70 65) 1.5 rfl rfl⟩

/-- C3: for every pair of present strings `a` and `b` whose joint size fits a `size_t`,
when the allocation succeeds `concatenate_strings` returns a new block holding the text
of `a` followed by the text of `b` and a terminator.  The block is distinct from every
block that was live, it is the only change of the set of live blocks, and the inputs,
which the function only reads, are not modified. -/
theorem concatenate_strings_join (a b : List Nat) (h : Heap)
    (hfit : strlen a + strlen b + 1 < SIZE_MOD) (hw : h.willing 1) :
    ∃ r h1, concatenate_strings (some a) (some b) h = .ok (some r, h1) ∧
      cstr r.bytes = cstr a ++ cstr b ∧ r.bytes = cstr a ++ cstr b ++ [0] ∧
      r.addr ∉ h.live ∧ h1.live = r.addr :: h.live := by
  refine ⟨_, _, concatenate_strings_ok a b h hfit hw, ?_, rfl, fresh_not_mem h.live, rfl⟩
  show cstr (cstr a ++ cstr b ++ [0]) = cstr a ++ cstr b
  apply cstr_append_zero
  intro x hx
  rcases List.mem_append.mp hx with hx | hx
  · exact cstr_ne_zero a x hx
  · exact cstr_ne_zero b x hx

/-- Witness of C3: `"Hello, "` and `"World"`. -/
theorem concatenate_strings_join_witness :
    strlen (ascii "Hello, ") + strlen (ascii "World") + 1 < SIZE_MOD ∧ heap0.willing 1 ∧
    ∃ r h1, concatenate_strings (some (ascii "Hello, ")) (some (ascii "World")) heap0 =
        .ok (some r, h1) ∧
      cstr r.bytes = cstr (ascii "Hello, ") ++ cstr (ascii "World") ∧
      r.bytes = cstr (ascii "Hello, ") ++ cstr (ascii "World") ++ [0] ∧
      r.addr ∉ heap0.live ∧ h1.live = r.addr :: heap0.live :=
  ⟨by decide, by intro j _; simp [heap0],
    concatenate_strings_join (ascii "Hello, ") (ascii "World") heap0 (by decide)
      (by intro j _; simp [heap0])⟩

/-- C4: `concatenate_strings` returns null, without touching the heap, whenever `a` or
`b` is absent; and when the allocation succeeds it returns a non-null block whenever
both are present, so that the result is null exactly when an input is absent. -/
theorem concatenate_strings_null_iff (a b : Option (List Nat)) (h : Heap) :
    ((a = none ∨ b = none) → concatenate_strings a b h = .ok (none, h)) ∧
    (h.willing 1 →
      (∀ s1 s2, a = some s1 → b = some s2 → strlen s1 + strlen s2 + 1 < SIZE_MOD) →
      ((a ≠ none ∧ b ≠ none) → ∃ r h1, concatenate_strings a b h = .ok (some r, h1)) ∧
      (∃ r h1, concatenate_strings a b h = .ok (r, h1) ∧
        (r = none ↔ (a = none ∨ b = none)))) := by
  cases a with
  | none =>
    exact ⟨fun _ => rfl, fun _ _ => ⟨fun hne => absurd rfl hne.1, none, h, rfl, by simp⟩⟩
  | some s1 =>
    cases b with
    | none =>
      exact ⟨fun _ => rfl, fun _ _ => ⟨fun hne => absurd rfl hne.2, none, h, rfl, by simp⟩⟩
    | some s2 =>
      refine ⟨fun hn => by simp at hn, fun hw hfit => ?_⟩
      have hok := concatenate_strings_ok s1 s2 h (hfit s1 s2 rfl rfl) hw
      exact ⟨fun _ => ⟨_, _, hok⟩, _, _, hok, by simp⟩

/-- Witness of C4: two present strings on a heap that refuses nothing. -/
theorem concatenate_strings_null_iff_witness :
    heap0.willing 1 ∧
    (∀ s1 s2, some (ascii "ab") = some s1 → some (ascii "c") = some s2 →
      strlen s1 + strlen s2 + 1 < SIZE_MOD) ∧
    ((some (ascii "ab") ≠ none ∧ some (ascii "c") ≠ none) →
        ∃ r h1, concatenate_strings (some (ascii "ab")) (some (ascii "c")) heap0 =
          .ok (some r, h1)) ∧
    (∃ r h1, concatenate_strings (some (ascii "ab")) (some (ascii "c")) heap0 = .ok (r, h1) ∧
        (r = none ↔ (some (ascii "ab") = none ∨ some (ascii "c") = none))) :=
  ⟨by intro j _; simp [heap0],
    by intro s1 s2 h1 h2; cases h1; cases h2; decide,
    (concatenate_strings_null_iff (some (ascii "ab")) (some (ascii "c")) heap0).2
      (by intro j _; simp [heap0])
      (by intro s1 s2 h1 h2; cases h1; cases h2; decide)⟩

/-- C5: when one of the three allocation steps of `create_collection` fails (the
allocator refuses one of the three requests, or the item array does not fit a
`size_t`), the call returns null, every block acquired during the call has been
released exactly once and nothing else has been released, and the live blocks are the
ones that were live before the call. -/
theorem create_collection_unwinds (t : List Nat) (n : Nat) (h : Heap)
    (ht : strlen t + 1 < SIZE_MOD)
    (hfail : (∃ j < 3, h.plan[j]? = some false) ∨ SIZE_MOD ≤ n * sizeof_Item) :
    ∃ h1 evs, create_collection (some t) n h = .ok (none, h1) ∧
      h1.live = h.live ∧ h1.log = h.log ++ evs ∧
      ∀ a, evs.count (Event.acquire a) ≤ 1 ∧
        evs.count (Event.release a) = evs.count (Event.acquire a) := by
  obtain ⟨evs, hr, hevs⟩ := create_collection_fails t n h ht hfail
  refine ⟨_, evs, hr, rfl, rfl, ?_⟩
  intro a
  have hne : fresh (fresh h.live :: h.live) ≠ fresh h.live := by
    intro heq
    have := fresh_not_mem (fresh h.live :: h.live)
    rw [heq] at this
    simp at this
  rcases hevs with rfl | rfl | rfl
  · simp
  · by_cases h1 : fresh h.live = a
    · subst h1; simp [List.count_cons]
    · simp [List.count_cons, h1]
  · by_cases h1 : fresh h.live = a
    · subst h1; simp [List.count_cons, hne]
    · by_cases h2 : fresh (fresh h.live :: h.live) = a
      · subst h2; simp [List.count_cons, h1]
      · simp [List.count_cons, h1, h2]

/-- Witness of C5: the item array is refused after the aggregate and the title copy
have been granted. -/
theorem create_collection_unwinds_witness :
    strlen (ascii "Test") + 1 < SIZE_MOD ∧
    ((∃ j < 3, ({ heap0 with plan := [true, true, false] } : Heap).plan[j]? = some false) ∨
      SIZE_MOD ≤ 3 * sizeof_Item) ∧
    ∃ h1 evs, create_collection (some (ascii "Test")) 3
        { heap0 with plan := [true, true, false] } = .ok (none, h1) ∧
      h1.live = ({ heap0 with plan := [true, true, false] } : Heap).live ∧
      h1.log = ({ heap0 with plan := [true, true, false] } : Heap).log ++ evs ∧
      ∀ a, evs.count (Event.acquire a) ≤ 1 ∧
        evs.count (Event.release a) = evs.count (Event.acquire a) :=
  ⟨by decide, Or.inl ⟨2, by decide, rfl⟩,
    create_collection_unwinds (ascii "Test") 3 { heap0 with plan := [true, true, false] }
      (by decide) (Or.inl ⟨2, by decide, rfl⟩)⟩

/-- C6: for every present title, when the allocations of the call succeed,
`create_collection(title, 0)` returns a valid, non-null collection with
`item_count = 0` and an empty item sequence, whose title is the given title; it does
not report failure. -/
theorem create_collection_zero (t : List Nat) (h : Heap) (hw : h.willing 3)
    (ht : strlen t + 1 < SIZE_MOD) :
    ∃ c h1, create_collection (some t) 0 h = .ok (some c, h1) ∧
      c.item_count = 0 ∧ c.items.cells = [] ∧ cstr c.title.bytes = cstr t :=
  ⟨_, _, create_collection_ok t 0 h hw ht (by norm_num), rfl, rfl,
    cstr_append_zero _ _ (cstr_ne_zero t)⟩

/-- Witness of C6: `create_collection("X", 0)` on a heap that refuses nothing. -/
theorem create_collection_zero_witness :
    heap0.willing 3 ∧ strlen (ascii "X") + 1 < SIZE_MOD ∧
    ∃ c h1, create_collection (some (ascii "X")) 0 heap0 = .ok (some c, h1) ∧
      c.item_count = 0 ∧ c.items.cells = [] ∧ cstr c.title.bytes = cstr (ascii "X") :=
  ⟨by intro j _; simp [heap0], by decide,
    create_collection_zero (ascii "X") heap0 (by intro j _; simp [heap0]) (by decide)⟩

/-- C7: for every `item_count`, `create_collection` with an absent title returns null
and leaves the heap as it was: no request is made to the allocator. -/
theorem create_collection_absent_title (n : Nat) (h : Heap) :
    create_collection none n h = .ok (none, h) := rfl

/-- C8: `initialize_item` does nothing when the item or the name is absent: with an
absent name every item, the one pointed to included, keeps its `id`, `name` and
`value`; with an absent item no item changes. -/
theorem initialize_item_absent (mem : List Item) (item : Option Nat) (id : Int)
    (name : Option (List Nat)) (value : Float) :
    initialize_item mem item id none value = .ok mem ∧
    initialize_item mem none id name value = .ok mem := by
  constructor
  · cases item <;> rfl
  · rfl

/-- C9: for every present item and present name, after `initialize_item` the item has
the given `id` and `value` and its name field is terminated, with a text of at most 63
bytes; and every item of every collection returned by `create_collection` has a name
field of 64 bytes ending in a terminator, with a text of at most 63 bytes. -/
theorem name_invariant :
    (∀ (mem : List Item) (p : Nat) (it : Item) (id : Int) (src : List Nat) (value : Float),
      mem[p]? = some it → it.name.length = sizeof_name →
      ∃ it1, initialize_item mem (some p) id (some src) value = .ok (mem.set p it1) ∧
        (mem.set p it1)[p]? = some it1 ∧ it1.id = id ∧ it1.value = value ∧
        it1.name.length = 64 ∧ it1.name[63]? = some 0 ∧ strlen it1.name ≤ 63) ∧
    (∀ (title : Option (List Nat)) (n : Nat) (h h1 : Heap) (c : Collection),
      create_collection title n h = .ok (some c, h1) →
      ∀ it ∈ c.items.cells,
        it.name.length = 64 ∧ it.name[63]? = some 0 ∧ strlen it.name ≤ 63) := by
  constructor
  · intro mem p it id src value hp hname
    have hlt : p < mem.length := by
      rcases Nat.lt_or_ge p mem.length with hlt | hge
      · exact hlt
      · rw [List.getElem?_eq_none hge] at hp
        cases hp
    refine ⟨{ id := id, name := stored_name src, value := value },
      initialize_item_ok mem p it id src value hp hname,
      List.getElem?_set_self hlt, rfl, rfl, ?_⟩
    exact name_ok_stored id src value
  · intro title n h h1 c hr it hit
    exact create_collection_inv title n h h1 c hr it hit

/-- Witness of C9: an item initialised with a 70-byte name, and the items of
`create_collection("Test", 3)`. -/
theorem name_invariant_witness :
    (∃ it1, initialize_item [zeroItem] (some 0) 7 (some (List.replicate 70 65)) 1.5 =
        .ok ([zeroItem].set 0 it1) ∧
      ([zeroItem].set 0 it1)[0]? = some it1 ∧ it1.id = 7 ∧ it1.value = 1.5 ∧
      it1.name.length = 64 ∧ it1.name[63]? = some 0 ∧ strlen it1.name ≤ 63) ∧
    (∀ c h1, create_collection (some (ascii "Test")) 3 heap0 = .ok (some c, h1) →
      ∀ it ∈ c.items.cells,
        it.name.length = 64 ∧ it.name[63]? = some 0 ∧ strlen it.name ≤ 63) :=
  ⟨name_invariant.1 [zeroItem] 0 zeroItem 7 (List.replicate 70 65) 1.5 rfl rfl,
    fun c h1 => name_invariant.2 (some (ascii "Test")) 3 heap0 h1 c⟩

/-- C10 (as amended): for every pair of integers `a` and `b` whose sum lies in the
32-bit signed range, the pairs of the minimum and the maximum 32-bit value included,
`add_numbers a b` equals `a + b`; the function has no error result and no state. -/
theorem add_numbers_exact (a b : Int) (hlo : -2 ^ 31 ≤ a + b) (hhi : a + b < 2 ^ 31) :
    add_numbers a b = a + b := by
  unfold add_numbers toInt32
  omega

/-- Witness of C10: the minimum and the maximum 32-bit value. -/
theorem add_numbers_exact_witness :
    (-2 ^ 31 : Int) ≤ -2147483648 + 2147483647 ∧ (-2147483648 + 2147483647 : Int) < 2 ^ 31 ∧
    add_numbers (-2147483648) 2147483647 = -2147483648 + 2147483647 :=
  ⟨by decide, by decide, add_numbers_exact (-2147483648) 2147483647 (by decide) (by decide)⟩

/-- C10 (counterexample): the maximum 32-bit value plus one gives the minimum 32-bit
value, not the sum. -/
theorem add_numbers_overflow :
    add_numbers 2147483647 1 = -2147483648 ∧ add_numbers 2147483647 1 ≠ 2147483647 + 1 := by
  decide

/-! ## Release of a collection -/

theorem malloc_some (size : Nat) (h h1 : Heap) (b : CharBuf)
    (hm : malloc size h = (some b, h1)) : b.addr = fresh h.live ∧ h1 = h.acquired := by
  unfold malloc request at hm
  by_cases hg : h.grants size = true
  · simp only [hg, if_true, Prod.mk.injEq, Option.some.injEq] at hm
    exact ⟨by rw [← hm.1], hm.2.symm⟩
  · simp [hg] at hm

theorem calloc_some (nmemb size : Nat) (h h1 : Heap) (arr : ItemArr)
    (hc : calloc nmemb size h = (some arr, h1)) : arr.addr = fresh h.live ∧ h1 = h.acquired := by
  unfold calloc request at hc
  by_cases hg : h.grants (nmemb * size) = true
  · simp only [hg, if_true, Prod.mk.injEq, Option.some.injEq] at hc
    exact ⟨by rw [← hc.1], hc.2.symm⟩
  · simp [hg] at hc

theorem create_collection_blocks (title : Option (List Nat)) (n : Nat) (h h1 : Heap)
    (c : Collection) (hr : create_collection title n h = .ok (some c, h1)) :
    c.addr = fresh h.live ∧ c.title.addr = fresh h.acquired.live ∧
      c.items.addr = fresh h.acquired.acquired.live ∧ h1 = h.acquired.acquired.acquired := by
  cases title with
  | none => simp [create_collection] at hr
  | some t =>
    unfold create_collection at hr
    simp only [bind, Except.bind] at hr
    split at hr
    · simp at hr
    · split at hr
      · split at hr <;> simp at hr
      · split at hr
        · simp at hr
        · split at hr
          · split at hr
            · simp at hr
            · split at hr <;> simp at hr
          · split at hr
            · simp at hr
            · rename_i x0 cbuf hA hmA x1 tbuf hB hmB x2 tb hs x3 arr hC hcal xe cells hloop
              obtain ⟨ha, hA1⟩ := malloc_some _ _ _ _ hmA
              subst hA1
              obtain ⟨hb, hB1⟩ := malloc_some _ _ _ _ hmB
              subst hB1
              obtain ⟨hc, hC1⟩ := calloc_some _ _ _ _ _ hcal
              subst hC1
              simp only [Except.ok.injEq, Prod.mk.injEq, Option.some.injEq] at hr
              obtain ⟨hc1, hh⟩ := hr
              subst hc1
              exact ⟨ha, hb, hc, hh.symm⟩

theorem fresh_ne_of_mem (live : List Nat) (a : Nat) (ha : a ∈ live) : fresh live ≠ a := by
  intro heq
  exact fresh_not_mem live (heq ▸ ha)

theorem free_collection_ok (h : Heap) (c : Collection)
    (ha : c.addr = fresh h.live) (hb : c.title.addr = fresh h.acquired.live)
    (hc : c.items.addr = fresh h.acquired.acquired.live) :
    free_collection (some c) h.acquired.acquired.acquired =
      .ok { live := h.live, plan := h.plan.drop 3, junk := h.junk,
            log := h.log ++ [Event.acquire c.addr, Event.acquire c.title.addr,
              Event.acquire c.items.addr, Event.release c.title.addr,
              Event.release c.items.addr, Event.release c.addr] } := by
  have h12 : fresh (fresh h.live :: h.live) ≠ fresh h.live :=
    fresh_ne_of_mem _ _ (by simp)
  have h13 : fresh (fresh (fresh h.live :: h.live) :: fresh h.live :: h.live) ≠ fresh h.live :=
    fresh_ne_of_mem _ _ (by simp)
  have h23 : fresh (fresh (fresh h.live :: h.live) :: fresh h.live :: h.live) ≠
      fresh (fresh h.live :: h.live) :=
    fresh_ne_of_mem _ _ (by simp)
  unfold free_collection
  simp only [bind, Except.bind]
  rw [free_ok _ _ (by rw [hb]; simp [Heap.acquired])]
  simp only []
  rw [free_ok _ _ (by
    rw [hc]
    simp only [Heap.acquired, Heap.released, hb]
    rw [List.erase_cons_tail (by simpa using h23)]
    simp)]
  simp only []
  rw [free_ok _ _ (by
    rw [ha]
    simp only [Heap.acquired, Heap.released, hb, hc]
    rw [List.erase_cons_tail (by simpa using h23), List.erase_cons_head, List.erase_cons_head]
    simp)]
  simp only [Heap.acquired, Heap.released, ha, hb, hc]
  rw [List.erase_cons_tail (by simpa using h23), List.erase_cons_head, List.erase_cons_head,
    List.erase_cons_head, tail_tail_tail_eq_drop]
  simp

/-! ## Decimal digits determine the number -/

theorem digitChar_value : ∀ d < 10, (Nat.digitChar d).toNat - 48 = d := by decide

theorem toDigitsCore_value : ∀ (fuel n : Nat) (acc : List Char), n < fuel →
    (Nat.toDigitsCore 10 fuel n acc).foldl (fun a c => 10 * a + (c.toNat - 48)) 0 =
      acc.foldl (fun a c => 10 * a + (c.toNat - 48)) n := by
  intro fuel
  induction fuel with
  | zero => intro n acc h; omega
  | succ f ih =>
    intro n acc hn
    have hd := digitChar_value (n % 10) (Nat.mod_lt _ (by decide))
    simp only [Nat.toDigitsCore]
    split_ifs with h0
    · simp only [List.foldl_cons, hd]
      congr 1
      omega
    · rw [ih (n / 10) _ (by omega)]
      simp only [List.foldl_cons, hd]
      congr 1
      omega

theorem decimal_value_fmt_zu (v : Nat) : decimal_value (fmt_zu v) = v := by
  have := toDigitsCore_value (v + 1) v [] (by omega)
  simp only [List.foldl_nil] at this
  unfold decimal_value
  show List.foldl _ 0 (List.map Char.toNat (Nat.toDigitsCore 10 (v + 1) v [])) = v
  rw [List.foldl_map]
  exact this

theorem fmt_zu_injective (v w : Nat) (hvw : fmt_zu v = fmt_zu w) : v = w := by
  rw [← decimal_value_fmt_zu v, ← decimal_value_fmt_zu w, hvw]

theorem default_name_text_injective (i j : Nat) (hij : default_name_text i = default_name_text j) :
    i = j := by
  have := fmt_zu_injective _ _ (List.append_cancel_left hij)
  omega

/-! ## Well-formed UTF-8 and one-byte characters -/

theorem utf8_valid_of_ascii (l : List Nat) (hl : ∀ b ∈ l, b < 128) : utf8_valid l = true := by
  induction l with
  | nil => rfl
  | cons x xs ih =>
    have hx : x < 128 := hl x (by simp)
    rw [utf8_valid.eq_def]
    simp only [hx, if_true]
    exact ih (fun b hb => hl b (by simp [hb]))

/-! ## Characters of well-formed UTF-8 -/

theorem utf8_cont_iff (b : Nat) : utf8_cont b = true ↔ 128 ≤ b ∧ b ≤ 191 := by
  simp [utf8_cont]

theorem utf8_valid_one (b0 : Nat) (t : List Nat) (h0 : b0 < 128) :
    utf8_valid (b0 :: t) = utf8_valid t := by
  rw [utf8_valid.eq_def]
  simp [h0]

theorem utf8_single_invalid (b0 : Nat) (h0 : 128 ≤ b0) : utf8_valid [b0] = false := by
  rw [utf8_valid.eq_def]
  simp
  omega

theorem utf8_valid_two (b0 b1 : Nat) (t : List Nat) (h0 : 194 ≤ b0) (h1 : b0 ≤ 223) :
    utf8_valid (b0 :: b1 :: t) = (utf8_cont b1 && utf8_valid t) := by
  rw [utf8_valid.eq_def]
  have : ¬ b0 < 128 := by omega
  simp [this, h0, h1]

theorem utf8_pair_invalid (b0 b1 : Nat) (h0 : 224 ≤ b0) : utf8_valid [b0, b1] = false := by
  rw [utf8_valid.eq_def]
  have h1 : ¬ b0 < 128 := by omega
  have h2 : ¬ b0 ≤ 223 := by omega
  simp [h1, h2]

theorem utf8_triple_invalid (b0 b1 b2 : Nat) (h0 : 240 ≤ b0) :
    utf8_valid [b0, b1, b2] = false := by
  rw [utf8_valid.eq_def]
  have h1 : ¬ b0 < 128 := by omega
  have h2 : ¬ b0 ≤ 223 := by omega
  have h3 : ¬ b0 = 224 := by omega
  have h4 : ¬ b0 ≤ 236 := by omega
  have h5 : ¬ b0 = 238 := by omega
  have h6 : ¬ b0 = 239 := by omega
  have h7 : ¬ b0 = 237 := by omega
  simp [h1, h2, h3, h4, h5, h6, h7]

theorem utf8_lead_bound (b0 b1 : Nat) (t : List Nat) (h0 : 128 ≤ b0)
    (hv : utf8_valid (b0 :: b1 :: t) = true) : 194 ≤ b0 ∧ b0 ≤ 244 := by
  rw [utf8_valid.eq_def] at hv
  have h1 : ¬ b0 < 128 := by omega
  simp only [h1, if_false] at hv
  by_contra hc
  have h2 : ¬ (194 ≤ b0 ∧ b0 ≤ 223) := by omega
  have h3 : ¬ b0 = 224 := by omega
  have h4 : ¬ ((225 ≤ b0 ∧ b0 ≤ 236) ∨ b0 = 238 ∨ b0 = 239) := by omega
  have h5 : ¬ b0 = 237 := by omega
  have h6 : ¬ b0 = 240 := by omega
  have h7 : ¬ (241 ≤ b0 ∧ b0 ≤ 243) := by omega
  have h8 : ¬ b0 = 244 := by omega
  simp only [h2, h3, h4, h5, h6, h7, h8, if_false] at hv
  split at hv
  · cases hv
  · split at hv
    · cases hv
    · cases hv

theorem utf8_valid_three (b0 b1 b2 : Nat) (t : List Nat) (h0 : 224 ≤ b0) (h1 : b0 ≤ 239)
    (hv : utf8_valid (b0 :: b1 :: b2 :: t) = true) :
    utf8_cont b1 = true ∧ utf8_cont b2 = true ∧ utf8_valid t = true ∧
      ∀ t1, utf8_valid (b0 :: b1 :: b2 :: t1) = utf8_valid t1 := by
  have n1 : ¬ b0 < 128 := by omega
  have n2 : ¬ (194 ≤ b0 ∧ b0 ≤ 223) := by omega
  have key : ∀ t1, utf8_valid (b0 :: b1 :: b2 :: t1) =
      (if b0 = 224 then
        decide (160 ≤ b1) && decide (b1 ≤ 191) && utf8_cont b2 && utf8_valid t1
      else if b0 = 237 then
        decide (128 ≤ b1) && decide (b1 ≤ 159) && utf8_cont b2 && utf8_valid t1
      else utf8_cont b1 && utf8_cont b2 && utf8_valid t1) := by
    intro t1
    conv_lhs => rw [utf8_valid.eq_def]
    simp only [n1, n2, if_false]
    by_cases e0 : b0 = 224
    · simp [e0]
    · by_cases e1 : b0 = 237
      · simp [e1]
      · have e2 : (225 ≤ b0 ∧ b0 ≤ 236) ∨ b0 = 238 ∨ b0 = 239 := by omega
        simp [e0, e1, e2]
  rw [key] at hv
  by_cases e0 : b0 = 224
  · rw [if_pos e0] at hv
    simp only [Bool.and_eq_true, decide_eq_true_eq] at hv
    obtain ⟨⟨⟨ha, hb⟩, hc⟩, hd⟩ := hv
    refine ⟨by rw [utf8_cont_iff]; omega, hc, hd, ?_⟩
    intro t1
    rw [key, if_pos e0]
    simp [ha, hb, hc]
  · by_cases e1 : b0 = 237
    · rw [if_neg e0, if_pos e1] at hv
      simp only [Bool.and_eq_true, decide_eq_true_eq] at hv
      obtain ⟨⟨⟨ha, hb⟩, hc⟩, hd⟩ := hv
      refine ⟨by rw [utf8_cont_iff]; omega, hc, hd, ?_⟩
      intro t1
      rw [key, if_neg e0, if_pos e1]
      simp [ha, hb, hc]
    · rw [if_neg e0, if_neg e1] at hv
      simp only [Bool.and_eq_true] at hv
      obtain ⟨⟨ha, hc⟩, hd⟩ := hv
      refine ⟨ha, hc, hd, ?_⟩
      intro t1
      rw [key, if_neg e0, if_neg e1]
      simp [ha, hc]

theorem utf8_valid_four (b0 b1 b2 b3 : Nat) (t : List Nat) (h0 : 240 ≤ b0)
    (hv : utf8_valid (b0 :: b1 :: b2 :: b3 :: t) = true) :
    utf8_cont b1 = true ∧ utf8_cont b2 = true ∧ utf8_cont b3 = true ∧ utf8_valid t = true ∧
      ∀ t1, utf8_valid (b0 :: b1 :: b2 :: b3 :: t1) = utf8_valid t1 := by
  have n1 : ¬ b0 < 128 := by omega
  have n2 : ¬ (194 ≤ b0 ∧ b0 ≤ 223) := by omega
  have n3 : ¬ b0 = 224 := by omega
  have n4 : ¬ ((225 ≤ b0 ∧ b0 ≤ 236) ∨ b0 = 238 ∨ b0 = 239) := by omega
  have n5 : ¬ b0 = 237 := by omega
  have key : ∀ t1, utf8_valid (b0 :: b1 :: b2 :: b3 :: t1) =
      (if b0 = 240 then
        decide (144 ≤ b1) && decide (b1 ≤ 191) && utf8_cont b2 && utf8_cont b3 && utf8_valid t1
      else if 241 ≤ b0 ∧ b0 ≤ 243 then
        utf8_cont b1 && utf8_cont b2 && utf8_cont b3 && utf8_valid t1
      else if b0 = 244 then
        decide (128 ≤ b1) && decide (b1 ≤ 143) && utf8_cont b2 && utf8_cont b3 && utf8_valid t1
      else false) := by
    intro t1
    conv_lhs => rw [utf8_valid.eq_def]
    simp only [n1, n2, n3, n4, n5, if_false]
  rw [key] at hv
  by_cases e0 : b0 = 240
  · rw [if_pos e0] at hv
    simp only [Bool.and_eq_true, decide_eq_true_eq] at hv
    obtain ⟨⟨⟨⟨ha, hb⟩, hc⟩, hd⟩, he⟩ := hv
    refine ⟨by rw [utf8_cont_iff]; omega, hc, hd, he, ?_⟩
    intro t1
    rw [key, if_pos e0]
    simp [ha, hb, hc, hd]
  · by_cases e1 : 241 ≤ b0 ∧ b0 ≤ 243
    · rw [if_neg e0, if_pos e1] at hv
      simp only [Bool.and_eq_true] at hv
      obtain ⟨⟨⟨ha, hc⟩, hd⟩, he⟩ := hv
      refine ⟨ha, hc, hd, he, ?_⟩
      intro t1
      rw [key, if_neg e0, if_pos e1]
      simp [ha, hc, hd]
    · by_cases e2 : b0 = 244
      · rw [if_neg e0, if_neg e1, if_pos e2] at hv
        simp only [Bool.and_eq_true, decide_eq_true_eq] at hv
        obtain ⟨⟨⟨⟨ha, hb⟩, hc⟩, hd⟩, he⟩ := hv
        refine ⟨by rw [utf8_cont_iff]; omega, hc, hd, he, ?_⟩
        intro t1
        rw [key, if_neg e0, if_neg e1, if_pos e2]
        simp [ha, hb, hc, hd]
      · rw [if_neg e0, if_neg e1, if_neg e2] at hv
        cases hv

theorem utf8_lead_not_cont (b0 : Nat) (h : b0 < 128 ∨ 194 ≤ b0) : utf8_cont b0 = false := by
  cases hc : utf8_cont b0 with
  | false => rfl
  | true =>
    rw [utf8_cont_iff] at hc
    omega

theorem utf8_valid_take_aux : ∀ (n : Nat) (l : List Nat), l.length ≤ n →
    utf8_valid l = true → ∀ k,
      (utf8_valid (l.take k) = true ↔
        (l.length ≤ k ∨ ∃ b, l[k]? = some b ∧ utf8_cont b = false)) := by
  intro n
  induction n with
  | zero =>
    intro l hl _ k
    have : l = [] := List.length_eq_zero.mp (by omega)
    subst this
    simp [utf8_valid]
  | succ n ih =>
    intro l hl hv k
    rcases l with _ | ⟨b0, t0⟩
    · simp [utf8_valid]
    by_cases h0 : b0 < 128
    · -- a one-byte character
      rw [utf8_valid_one _ _ h0] at hv
      rcases k with _ | k
      · simp [utf8_valid, utf8_lead_not_cont b0 (Or.inl h0)]
      · rw [List.take_succ_cons, utf8_valid_one _ _ h0,
          ih t0 (by simpa using hl) hv k]
        simp
    rcases t0 with _ | ⟨b1, t1⟩
    · rw [utf8_single_invalid _ (by omega)] at hv
      cases hv
    obtain ⟨hlo, hhi⟩ := utf8_lead_bound b0 b1 t1 (by omega) hv
    have hlead := utf8_lead_not_cont b0 (Or.inr hlo)
    have hsingle := utf8_single_invalid b0 (by omega)
    simp only [List.length_cons] at hl
    by_cases h2 : b0 ≤ 223
    · -- a two-byte character
      rw [utf8_valid_two _ _ _ hlo h2, Bool.and_eq_true] at hv
      obtain ⟨hc1, hv1⟩ := hv
      rcases k with _ | _ | k
      · simp [utf8_valid, hlead]
      · simp [hsingle, hc1]
      · rw [List.take_succ_cons, List.take_succ_cons, utf8_valid_two _ _ _ hlo h2, hc1,
          Bool.true_and, ih t1 (by omega) hv1 k]
        simp
    rcases t1 with _ | ⟨b2, t2⟩
    · rw [utf8_pair_invalid _ _ (by omega)] at hv
      cases hv
    have hpair := utf8_pair_invalid b0 b1 (by omega)
    simp only [List.length_cons] at hl
    by_cases h3 : b0 ≤ 239
    · -- a three-byte character
      obtain ⟨hc1, hc2, hv2, heq⟩ := utf8_valid_three b0 b1 b2 t2 (by omega) h3 hv
      rcases k with _ | _ | _ | k
      · simp [utf8_valid, hlead]
      · simp [hsingle, hc1]
      · simp [hpair, hc2]
      · rw [List.take_succ_cons, List.take_succ_cons, List.take_succ_cons, heq,
          ih t2 (by omega) hv2 k]
        simp
    rcases t2 with _ | ⟨b3, t3⟩
    · rw [utf8_triple_invalid _ _ _ (by omega)] at hv
      cases hv
    have htriple := utf8_triple_invalid b0 b1 b2 (by omega)
    simp only [List.length_cons] at hl
    -- a four-byte character
    obtain ⟨hc1, hc2, hc3, hv3, heq⟩ := utf8_valid_four b0 b1 b2 b3 t3 (by omega) hv
    rcases k with _ | _ | _ | _ | k
    · simp [utf8_valid, hlead]
    · simp [hsingle, hc1]
    · simp [hpair, hc2]
    · simp [htriple, hc3]
    · rw [List.take_succ_cons, List.take_succ_cons, List.take_succ_cons, List.take_succ_cons,
        heq, ih t3 (by omega) hv3 k]
      simp

theorem utf8_valid_take (l : List Nat) (hv : utf8_valid l = true) (k : Nat) :
    utf8_valid (l.take k) = true ↔
      (l.length ≤ k ∨ ∃ b, l[k]? = some b ∧ utf8_cont b = false) :=
  utf8_valid_take_aux l.length l (le_refl _) hv k

/-! ## The length of the decimal rendering -/

/-- C11: every collection returned by `create_collection` owns three blocks, pairwise
distinct, acquired in the order aggregate, title, item array; `free_collection` on it
releases the title, then the item array, then the aggregate, each exactly once, and
the live blocks are then the ones that were live before `create_collection`;
`free_collection` on an absent collection leaves the heap as it is. -/
theorem free_collection_balances :
    (∀ (title : Option (List Nat)) (n : Nat) (h h1 : Heap) (c : Collection),
      create_collection title n h = .ok (some c, h1) →
      ∃ h2, free_collection (some c) h1 = .ok h2 ∧ h2.live = h.live ∧
        h1.log = h.log ++ [Event.acquire c.addr, Event.acquire c.title.addr,
          Event.acquire c.items.addr] ∧
        h2.log = h1.log ++ [Event.release c.title.addr, Event.release c.items.addr,
          Event.release c.addr] ∧
        c.addr ≠ c.title.addr ∧ c.addr ≠ c.items.addr ∧ c.title.addr ≠ c.items.addr) ∧
    (∀ h : Heap, free_collection none h = .ok h) := by
  refine ⟨?_, fun h => rfl⟩
  intro title n h h1 c hr
  obtain ⟨ha, hb, hc, hh⟩ := create_collection_blocks title n h h1 c hr
  subst hh
  refine ⟨_, free_collection_ok h c ha hb hc, rfl, ?_, ?_, ?_, ?_, ?_⟩
  · simp [Heap.acquired, ha, hb, hc]
  · simp [Heap.acquired, ha, hb, hc]
  · rw [ha, hb]
    exact (fresh_ne_of_mem _ _ (by simp [Heap.acquired])).symm
  · rw [ha, hc]
    exact (fresh_ne_of_mem _ _ (by simp [Heap.acquired])).symm
  · rw [hb, hc]
    exact (fresh_ne_of_mem _ _ (by simp [Heap.acquired])).symm

/-- Witness of C11: `create_collection("Test", 3)` followed by `free_collection`. -/
theorem free_collection_balances_witness :
    ∃ c h1, create_collection (some (ascii "Test")) 3 heap0 = .ok (some c, h1) ∧
      ∃ h2, free_collection (some c) h1 = .ok h2 ∧ h2.live = heap0.live ∧
        h1.log = heap0.log ++ [Event.acquire c.addr, Event.acquire c.title.addr,
          Event.acquire c.items.addr] ∧
        h2.log = h1.log ++ [Event.release c.title.addr, Event.release c.items.addr,
          Event.release c.addr] ∧
        c.addr ≠ c.title.addr ∧ c.addr ≠ c.items.addr ∧ c.title.addr ≠ c.items.addr :=
  ⟨_, _, rfl, free_collection_balances.1 (some (ascii "Test")) 3 heap0 _ _ rfl⟩

/-- C12 (as amended): the name stored by `initialize_item` is in every case the first
`min(len, 63)` encoded bytes of the name; for every name that is well-formed UTF-8 the
stored name is well-formed UTF-8 exactly when the name has at most 63 encoded bytes or
its byte at offset 63 is not a continuation byte (`80..BF`), that is, when the cut
falls on a character boundary. -/
theorem initialize_item_utf8 (mem : List Item) (p : Nat) (it : Item) (id : Int)
    (src : List Nat) (value : Float) (hp : mem[p]? = some it)
    (hname : it.name.length = sizeof_name) :
    ∃ it1, initialize_item mem (some p) id (some src) value = .ok (mem.set p it1) ∧
      cstr it1.name = (cstr src).take (min (strlen src) 63) ∧
      (utf8_valid (cstr src) = true →
        (utf8_valid (cstr it1.name) = true ↔
          (strlen src ≤ 63 ∨ ∃ b, (cstr src)[63]? = some b ∧ utf8_cont b = false))) := by
  have htake : (cstr src).take (min (strlen src) 63) = (cstr src).take 63 := by
    by_cases h63 : strlen src ≤ 63
    · rw [Nat.min_eq_left h63, List.take_of_length_le h63]
      exact List.take_of_length_le (le_refl _)
    · rw [Nat.min_eq_right (by omega)]
  have hstored : cstr (stored_name src) = (cstr src).take 63 := cstr_stored_name src
  refine ⟨{ id := id, name := stored_name src, value := value },
    initialize_item_ok mem p it id src value hp hname, ?_, ?_⟩
  · show cstr (stored_name src) = _
    rw [htake, hstored]
  · intro hvalid
    show utf8_valid (cstr (stored_name src)) = true ↔ _
    rw [hstored]
    exact utf8_valid_take (cstr src) hvalid 63

/-- Witness of C12: the 64-byte name made of 61 letters `A`, `é` and `B`; the 63 bytes
stored end with the whole character `é`. -/
theorem initialize_item_utf8_witness :
    [zeroItem][0]? = some zeroItem ∧ zeroItem.name.length = sizeof_name ∧
    utf8_valid (cstr (List.replicate 61 65 ++ [195, 169, 66])) = true ∧
    (∃ b, (cstr (List.replicate 61 65 ++ [195, 169, 66]))[63]? = some b ∧
      utf8_cont b = false) ∧
    ∃ it1, initialize_item [zeroItem] (some 0) 7
        (some (List.replicate 61 65 ++ [195, 169, 66])) 1.5 = .ok ([zeroItem].set 0 it1) ∧
      cstr it1.name = (cstr (List.replicate 61 65 ++ [195, 169, 66])).take
        (min (strlen (List.replicate 61 65 ++ [195, 169, 66])) 63) ∧
      (utf8_valid (cstr (List.replicate 61 65 ++ [195, 169, 66])) = true →
        (utf8_valid (cstr it1.name) = true ↔
          (strlen (List.replicate 61 65 ++ [195, 169, 66]) ≤ 63 ∨
            ∃ b, (cstr (List.replicate 61 65 ++ [195, 169, 66]))[63]? = some b ∧
              utf8_cont b = false))) :=
  ⟨rfl, rfl, by decide, ⟨66, by decide, by decide⟩,
    initialize_item_utf8 [zeroItem] 0 zeroItem 7 (List.replicate 61 65 ++ [195, 169, 66]) 1.5
      rfl rfl⟩

/-- C12 (counterexample): the name made of 62 letters `A` followed by `é` is well-formed
UTF-8 of 64 bytes; the stored name is its first 63 bytes, which end with the first byte
of the two-byte character and are not well-formed UTF-8. -/
theorem initialize_item_splits_character :
    utf8_valid (cstr (utf8_bytes (String.mk (List.replicate 62 'A' ++ ['é'])))) = true ∧
    ∃ it1, initialize_item [zeroItem] (some 0) 7
        (some (utf8_bytes (String.mk (List.replicate 62 'A' ++ ['é'])))) 1.5 = .ok [it1] ∧
      cstr it1.name = List.replicate 62 65 ++ [195] ∧
      utf8_valid (cstr it1.name) = false := by
  have htext : (cstr (utf8_bytes (String.mk (List.replicate 62 'A' ++ ['é'])))).take 63 =
      List.replicate 62 65 ++ [195] := by decide
  have hstored := cstr_stored_name (utf8_bytes (String.mk (List.replicate 62 'A' ++ ['é'])))
  rw [sizeof_name_eq, htext] at hstored
  refine ⟨by decide, { id := 7, name := stored_name _, value := 1.5 },
    initialize_item_ok [zeroItem] 0 zeroItem 7 _ 1.5 rfl rfl, hstored, ?_⟩
  show utf8_valid (cstr (stored_name _)) = false
  rw [hstored]
  decide

/-- C14: for every present name, `id` and `value`, the item that `initialize_item`
produces is the same whatever the item held before: from any two prior items the call
gives one and the same item, with the given `id` and `value` and a name field of 64
bytes in which every byte from the end of the copied text on is zero. -/
theorem initialize_item_overwrites (mem1 mem2 : List Item) (p1 p2 : Nat) (it1 it2 : Item)
    (id : Int) (src : List Nat) (value : Float)
    (h1 : mem1[p1]? = some it1) (h2 : mem2[p2]? = some it2)
    (hn1 : it1.name.length = sizeof_name) (hn2 : it2.name.length = sizeof_name) :
    ∃ r, initialize_item mem1 (some p1) id (some src) value = .ok (mem1.set p1 r) ∧
      initialize_item mem2 (some p2) id (some src) value = .ok (mem2.set p2 r) ∧
      r.id = id ∧ r.value = value ∧ r.name.length = 64 ∧
      r.name.take (min (strlen src) 63) = (cstr src).take 63 ∧
      ∀ k, min (strlen src) 63 ≤ k → k < 64 → r.name[k]? = some 0 := by
  have hlen : (List.take 63 (cstr src)).length = min (strlen src) 63 := by
    rw [List.length_take, Nat.min_comm]; rfl
  refine ⟨{ id := id, name := stored_name src, value := value },
    initialize_item_ok mem1 p1 it1 id src value h1 hn1,
    initialize_item_ok mem2 p2 it2 id src value h2 hn2, rfl, rfl, stored_name_length src, ?_, ?_⟩
  · show (stored_name src).take _ = _
    rw [stored_name_eq, ← hlen]
    exact List.take_left' rfl
  · intro k hk hk64
    show (stored_name src)[k]? = some 0
    rw [stored_name_eq, List.getElem?_append_right (by omega), List.getElem?_replicate,
      if_pos (by omega)]

/-- Witness of C14: the name `"Hi"` stored over an all-zero item and over an item whose
name field is filled with the letter `B`. -/
theorem initialize_item_overwrites_witness :
    [zeroItem][0]? = some zeroItem ∧
    [zeroItem, { id := 9, name := List.replicate 64 66, value := 2.5 }][1]? =
      some { id := 9, name := List.replicate 64 66, value := 2.5 } ∧
    zeroItem.name.length = sizeof_name ∧ (List.replicate 64 66).length = sizeof_name ∧
    ∃ r, initialize_item [zeroItem] (some 0) 7 (some (ascii "Hi")) 1.5 =
        .ok ([zeroItem].set 0 r) ∧
      initialize_item [zeroItem, { id := 9, name := List.replicate 64 66, value := 2.5 }]
          (some 1) 7 (some (ascii "Hi")) 1.5 =
        .ok ([zeroItem, { id := 9, name := List.replicate 64 66, value := 2.5 }].set 1 r) ∧
      r.id = 7 ∧ r.value = 1.5 ∧ r.name.length = 64 ∧
      r.name.take (min (strlen (ascii "Hi")) 63) = (cstr (ascii "Hi")).take 63 ∧
      ∀ k, min (strlen (ascii "Hi")) 63 ≤ k → k < 64 → r.name[k]? = some 0 :=
  ⟨rfl, rfl, rfl, rfl,
    initialize_item_overwrites [zeroItem]
      [zeroItem, { id := 9, name := List.replicate 64 66, value := 2.5 }] 0 1 zeroItem
      { id := 9, name := List.replicate 64 66, value := 2.5 } 7 (ascii "Hi") 1.5 rfl rfl rfl rfl⟩

/-- C15: for every pair of present strings `a` and `b` whose joint size fits a `size_t`,
when the allocation succeeds the block of `strlen a + strlen b + 1` bytes is filled
exactly: the copy of `a` and the append of `b` both stay inside the block, the block
then holds the text of `a`, the text of `b` and the terminator and nothing else, the
result has length `strlen a + strlen b`, and its terminator is the last byte of the
block. -/
theorem concatenate_strings_fills (a b : List Nat) (h : Heap)
    (hfit : strlen a + strlen b + 1 < SIZE_MOD) (hw : h.willing 1) :
    ∃ r h1, concatenate_strings (some a) (some b) h = .ok (some r, h1) ∧
      (∃ r1, strcpy (uninit h.junk (strlen a + strlen b + 1)) a = .ok r1 ∧
        strcat r1 b = .ok r.bytes) ∧
      r.bytes = cstr a ++ cstr b ++ [0] ∧
      r.bytes.length = strlen a + strlen b + 1 ∧
      strlen r.bytes = strlen a + strlen b ∧
      r.bytes[strlen a + strlen b]? = some 0 ∧
      r.bytes.getLast? = some 0 := by
  have hla : strlen a = (cstr a).length := rfl
  have hlb : strlen b = (cstr b).length := rfl
  have hnz : ∀ x ∈ cstr a ++ cstr b, x ≠ 0 := by
    intro x hx
    rcases List.mem_append.mp hx with hx | hx
    · exact cstr_ne_zero a x hx
    · exact cstr_ne_zero b x hx
  refine ⟨_, _, concatenate_strings_ok a b h hfit hw, ?_, rfl, ?_, ?_, ?_, ?_⟩
  · have hcat := strcpy_strcat (uninit h.junk (strlen a + strlen b + 1)) a b (uninit_length _ _)
    cases hc : strcpy (uninit h.junk (strlen a + strlen b + 1)) a with
    | error e => simp [hc, bind, Except.bind] at hcat
    | ok r1 =>
      simp only [hc, bind, Except.bind] at hcat
      exact ⟨r1, rfl, hcat⟩
  · simp only [List.length_append, List.length_singleton, hla, hlb]
  · show (cstr (cstr a ++ cstr b ++ [0])).length = _
    rw [cstr_append_zero _ _ hnz, List.length_append, hla, hlb]
  · show (cstr a ++ cstr b ++ [0])[strlen a + strlen b]? = some 0
    rw [List.getElem?_append_right (by simp [hla, hlb])]
    simp [hla, hlb]
  · show (cstr a ++ cstr b ++ [0]).getLast? = some 0
    simp

/-- Witness of C15: `"Hello, "` and `"World"`. -/
theorem concatenate_strings_fills_witness :
    strlen (ascii "Hello, ") + strlen (ascii "World") + 1 < SIZE_MOD ∧ heap0.willing 1 ∧
    ∃ r h1, concatenate_strings (some (ascii "Hello, ")) (some (ascii "World")) heap0 =
        .ok (some r, h1) ∧
      (∃ r1, strcpy (uninit heap0.junk (strlen (ascii "Hello, ") + strlen (ascii "World") + 1))
          (ascii "Hello, ") = .ok r1 ∧
        strcat r1 (ascii "World") = .ok r.bytes) ∧
      r.bytes = cstr (ascii "Hello, ") ++ cstr (ascii "World") ++ [0] ∧
      r.bytes.length = strlen (ascii "Hello, ") + strlen (ascii "World") + 1 ∧
      strlen r.bytes = strlen (ascii "Hello, ") + strlen (ascii "World") ∧
      r.bytes[strlen (ascii "Hello, ") + strlen (ascii "World")]? = some 0 ∧
      r.bytes.getLast? = some 0 :=
  ⟨by decide, by intro j _; simp [heap0],
    concatenate_strings_fills (ascii "Hello, ") (ascii "World") heap0 (by decide)
      (by intro j _; simp [heap0])⟩

theorem create_collection_cells (t : List Nat) (n : Nat) (h : Heap) (hw : h.willing 3)
    (ht : strlen t + 1 < SIZE_MOD) (hn : n < 10 ^ 14) :
    ∃ c h1, create_collection (some t) n h = .ok (some c, h1) ∧
      c.items.cells = (List.range n).map default_item :=
  ⟨_, _, create_collection_ok t n h hw ht hn, rfl⟩

/-- C16: for every present title and every `item_count` `n ≤ 2^31`, when the three
allocations succeed the ids of the items of the returned collection are exactly
`0, 1, ..., n-1` (hence non-negative and pairwise distinct), and the names of the
items are pairwise distinct. -/
theorem create_collection_distinct (t : List Nat) (n : Nat) (h : Heap)
    (hw : h.willing 3) (ht : strlen t + 1 < SIZE_MOD) (hn : n ≤ 2147483648) :
    ∃ c h1, create_collection (some t) n h = .ok (some c, h1) ∧
      c.items.cells.length = n ∧
      c.items.cells.map (fun it => it.id) = (List.range n).map (fun i : Nat => (i : Int)) ∧
      (∀ it ∈ c.items.cells, 0 ≤ it.id) ∧
      (c.items.cells.map (fun it => it.id)).Nodup ∧
      (c.items.cells.map (fun it => cstr it.name)).Nodup ∧
      (c.items.cells.map (fun it => it.name)).Nodup := by
  have hn14 : n < 10 ^ 14 := by
    have : (2147483648 : Nat) < 10 ^ 14 := by norm_num
    omega
  have hid : ∀ i ∈ List.range n, (default_item i).id = (i : Int) := by
    intro i hi
    exact toInt32_of_lt i (by have := List.mem_range.mp hi; norm_num; omega)
  have htext : ∀ i ∈ List.range n, cstr (default_item i).name = default_name_text i := by
    intro i hi
    exact cstr_default_item_name i (by have := List.mem_range.mp hi; omega)
  have hnames : (List.map (fun it => cstr it.name) (List.map default_item (List.range n))).Nodup := by
    rw [List.map_map]
    apply List.Nodup.map_on _ (List.nodup_range n)
    intro i hi j hj hij
    simp only [Function.comp] at hij
    rw [htext i hi, htext j hj] at hij
    exact default_name_text_injective i j hij
  obtain ⟨c, h1, hc, hcells⟩ := create_collection_cells t n h hw ht hn14
  have hids : c.items.cells.map (fun it => it.id) =
      (List.range n).map (fun i : Nat => (i : Int)) := by
    rw [hcells, List.map_map]
    apply List.map_congr_left
    intro i hi
    rw [Function.comp_apply]
    exact hid i hi
  have hinj : Function.Injective (fun i : Nat => (i : Int)) := fun a b hab => Int.ofNat.inj hab
  refine ⟨c, h1, hc, ?_, hids, ?_, ?_, ?_, ?_⟩
  · rw [hcells]; simp
  · intro it hit
    rw [hcells] at hit
    obtain ⟨i, hi, rfl⟩ := List.mem_map.mp hit
    rw [hid i hi]
    exact Int.ofNat_nonneg i
  · rw [hids]
    exact List.Nodup.map hinj (List.nodup_range n)
  · rw [hcells]; exact hnames
  · rw [hcells]
    exact List.Nodup.of_map (fun nm => cstr nm) (by simpa [List.map_map] using hnames)

/-- Witness of C16: `create_collection("Test", 3)`. -/
theorem create_collection_distinct_witness :
    heap0.willing 3 ∧ strlen (ascii "Test") + 1 < SIZE_MOD ∧ 3 ≤ 2147483648 ∧
    ∃ c h1, create_collection (some (ascii "Test")) 3 heap0 = .ok (some c, h1) ∧
      c.items.cells.length = 3 ∧
      c.items.cells.map (fun it => it.id) = (List.range 3).map (fun i : Nat => (i : Int)) ∧
      (∀ it ∈ c.items.cells, 0 ≤ it.id) ∧
      (c.items.cells.map (fun it => it.id)).Nodup ∧
      (c.items.cells.map (fun it => cstr it.name)).Nodup ∧
      (c.items.cells.map (fun it => it.name)).Nodup :=
  ⟨by intro j _; simp [heap0], by decide, by decide,
    create_collection_distinct (ascii "Test") 3 heap0 (by intro j _; simp [heap0]) (by decide)
      (by decide)⟩

end CLib
